import Mathlib

/-!
# Verification of the instance data-binding core of `lib/model.js`

Shallow embedding of `ModelBaseClass` from `lib/model.js`: the initialization
pipeline (`_initProperties`), the dual-buffer change-tracking store
(`__data` / `__dataWas` / `__cachedRelations`), the type-coercion pass for
non-primitive properties, the serializer (`toObject` / `toJSON` /
`fromObject`), the change tracker (`propertyChanged`), and the static
`getPropertyType`.

Modelling decisions:
* JS values are modelled by `Value`.  Numbers are `Int` (float `NaN`/`-0`
  quirks of `===` are out of scope); object and array values are references
  (`Value.ref`) into an explicit heap, so that JS `===` on objects is address
  comparison and fresh allocation produces fresh addresses.
* JS objects used as records (`__data`, `__dataWas`, `__cachedRelations`, the
  raw constructor input, serializer output) are insertion-ordered association
  lists with last-write-in-place semantics (`setA`), matching JS property
  insertion/update order.
* The schema registry (`ctor.definition`), relation registry
  (`ctor.relations`) and `forEachProperty` are external collaborators of the
  excerpt; they are modelled from the spec as an ordered property list with
  per-property optional type tag and default, a settings-level strict flag,
  and an ordered relation list.
-/

namespace Juggler

/-- JS runtime values.  `func` carries an identity tag (JS functions compare
by identity); `ref` is an address into the heap (JS objects compare by
identity).  Numbers are modelled as integers. -/
inductive Value where
  | undef
  | null
  | bool (b : Bool)
  | num (n : Int)
  | str (s : String)
  | func (id : Nat)
  | ref (addr : Nat)
deriving DecidableEq, Repr

/-- A property type tag, as the code consumes it: either a named constructor
(`type.name` is the string) or an array literal `[T]` (for which JS
`type.name` is `undefined` and `Array.isArray(type)` holds). -/
inductive TypeTag where
  | named (n : String)
  | arrayOf (elem : TypeTag)
deriving DecidableEq, Repr

/-- Heap objects: plain objects, plain arrays, and Ordered List Container
instances.  The container (`lib/list.js`, not part of the excerpt) is
modelled from the spec: it wraps the value it was constructed from and
remembers its element type tag; the owning-instance back-reference is not
observable by any modelled operation and is omitted. -/
inductive HObj where
  | plain (fields : List (String × Value))
  | arr (elems : List Value)
  | list (wrapped : Value) (elemType : TypeTag)
deriving DecidableEq, Repr

/-- The heap: address `a` denotes `objs[a]`; allocation appends. -/
abbrev Heap := List HObj

/-- Strict mode values: `true`, `false`, `'throw'`, or anything else
(e.g. `undefined`); the code only ever tests `=== false` and `=== 'throw'`. -/
inductive Strict where
  | strictTrue
  | strictFalse
  | strictThrow
  | strictOther
deriving DecidableEq, Repr

/-- A property default: absent (`undefined`), a literal value, or a
zero-argument factory.  A factory is modelled by the value it returns; per
the spec the returned reference is shared, not cloned. -/
inductive Dflt where
  | noDflt
  | value (v : Value)
  | factory (result : Value)
deriving DecidableEq, Repr

/-- A property descriptor from the registry: `{type, default}`.  The type is
optional because `getPropertyType` explicitly handles its absence. -/
structure PropDescr where
  type : Option TypeTag
  dflt : Dflt
deriving DecidableEq, Repr

/-- A declared relation: `{keyFrom, keyTo}`. -/
structure Relation where
  keyFrom : String
  keyTo : String
deriving DecidableEq, Repr

/-- The model definition, as consumed by the code: ordered property
registry (`ctor.definition.build()` / `ctor.definition.properties`),
settings-level strict mode, and the relation registry (`ctor.relations`). -/
structure ModelDef where
  properties : List (String × PropDescr)
  settingsStrict : Strict
  relations : List (String × Relation)
deriving DecidableEq, Repr

/-- Errors raised by the modelled code. -/
inductive JsError where
  | unknownProperty (key : String)
  | missingType (key : String)
  | typeError (msg : String)
deriving DecidableEq, Repr

/-- Per-instance state: the `__data` / `__dataWas` / `__cachedRelations`
stores, the plain own enumerable properties attached to the instance
(unregistered keys mirrored under `strict === false`), and the resolved
instance-level strict mode (`__strict`).  The opaque `__dataSource` handle
is not consumed by any modelled operation and is omitted. -/
structure Instance where
  data : List (String × Value)
  dataWas : List (String × Value)
  cachedRelations : List (String × Value)
  own : List (String × Value)
  strict : Strict
deriving DecidableEq, Repr

/-- Constructor options: `{applySetters, strict}` (`none` = key absent). -/
structure Options where
  applySetters : Option Bool
  strict : Option Strict
deriving DecidableEq, Repr

/-! ## Association-list primitives (JS object field access/update) -/

/-- Field lookup in an insertion-ordered record. -/
def alookup {α : Type} (l : List (String × α)) (k : String) : Option α :=
  match l with
  | [] => none
  | (k', v) :: t => if k' = k then some v else alookup t k

/-- JS property update: overwrite in place if present, else append. -/
def setA {α : Type} (l : List (String × α)) (k : String) (v : α) :
    List (String × α) :=
  match l with
  | [] => [(k, v)]
  | (k', v') :: t => if k' = k then (k', v) :: t else (k', v') :: setA t k v

/-- `Object.prototype.hasOwnProperty` / the `in` operator on a record. -/
def hasKey {α : Type} (l : List (String × α)) (k : String) : Bool :=
  (alookup l k).isSome

/-- JS property read on a record: `undefined` when absent. -/
def lookupD (l : List (String × Value)) (k : String) : Value :=
  ((alookup l k).getD .undef)

/-! ## JS value primitives -/

/-- `typeof v`. -/
def typeofV : Value → String
  | .undef => "undefined"
  | .null => "object"
  | .bool _ => "boolean"
  | .num _ => "number"
  | .str _ => "string"
  | .func _ => "function"
  | .ref _ => "object"

/-- JS truthiness. -/
def truthy : Value → Bool
  | .undef => false
  | .null => false
  | .bool b => b
  | .num n => n != 0
  | .str s => s ≠ ""
  | .func _ => true
  | .ref _ => true

/-- `a || b`. -/
def jsOr (a b : Value) : Value := if truthy a then a else b

/-- `typeof v === 'function'`. -/
def isFunc : Value → Bool
  | .func _ => true
  | _ => false

/-- Primitive (non-object, non-function) values. -/
def isPrim : Value → Bool
  | .undef => true
  | .null => true
  | .bool _ => true
  | .num _ => true
  | .str _ => true
  | _ => false

/-- String coercion `v + ''` / `String(v)`.  The pipeline only applies it to
truthy non-object values (booleans, numbers, nonempty strings, functions);
a function stringifies to its source text, which is opaque here and modelled
as a placeholder that no JSON parse accepts; the remaining cases are
unreachable from the pipeline and given their usual JS renderings. -/
def jsToString : Value → String
  | .undef => "undefined"
  | .null => "null"
  | .bool b => if b then "true" else "false"
  | .num n => toString n
  | .str s => s
  | .func id => "[Function " ++ toString id ++ "]"
  | .ref _ => "[object Object]"

/-- A decimal digit's value. -/
def digToNat (c : Char) : Option Nat :=
  if c = '0' then some 0 else if c = '1' then some 1 else if c = '2' then some 2
  else if c = '3' then some 3 else if c = '4' then some 4 else if c = '5' then some 5
  else if c = '6' then some 6 else if c = '7' then some 7 else if c = '8' then some 8
  else if c = '9' then some 9 else none

/-- Accumulate a decimal numeral. -/
def parseNatAux : List Char → Nat → Option Nat
  | [], acc => some acc
  | c :: t, acc =>
    match digToNat c with
    | some dd => parseNatAux t (acc * 10 + dd)
    | none => none

/-- A JSON integer numeral body: `0`, or a nonzero leading digit followed
by digits (JSON forbids leading zeros). -/
def parseJsonDigits : List Char → Option Nat
  | [] => none
  | ['0'] => some 0
  | '0' :: _ :: _ => none
  | l => parseNatAux l 0

/-- A JSON integer numeral, with optional leading minus. -/
def parseJsonInt (s : String) : Option Int :=
  match s.toList with
  | '-' :: t => (parseJsonDigits t).map (fun n => -(n : Int))
  | l => (parseJsonDigits l).map (fun n => (n : Int))

/-- `JSON.parse`, restricted to the literals the pipeline can feed it
(`true`/`false`/`null` and integer numerals, i.e. the strings produced by
coercing booleans and numbers, plus raw string inputs).  String, array and
object JSON documents, and fraction/exponent numerals (whose values are
non-integer floats, outside the integer number model), are not modelled and
conservatively fail, which takes the same `String(...)` fallback branch as
a JS parse error. -/
def jsonParse (s : String) : Option Value :=
  if s = "true" then some (.bool true)
  else if s = "false" then some (.bool false)
  else if s = "null" then some .null
  else match parseJsonInt s with
    | some n => some (.num n)
    | none => none

/-- Property read `v[k]` on an arbitrary value: a TypeError on
`null`/`undefined`; field lookup on plain objects; `undefined` on other
values (boxed primitives and non-field object kinds have no modelled own
fields). -/
def getField (h : Heap) (v : Value) (k : String) : Except JsError Value :=
  match v with
  | .undef => .error (.typeError ("Cannot read property " ++ k ++ " of undefined"))
  | .null => .error (.typeError ("Cannot read property " ++ k ++ " of null"))
  | .ref a =>
    match h.get? a with
    | some (.plain fields) => .ok (lookupD fields k)
    | _ => .ok (.undef)
  | _ => .ok (.undef)

/-! ## Type-tag helpers (as the code consumes tags) -/

/-- `var BASE_TYPES = ['String', 'Boolean', 'Number', 'Date', 'Text'];` -/
def BASE_TYPES : List String := ["String", "Boolean", "Number", "Date", "Text"]

/-- JS `type.name`: the constructor name, or `undefined` for an array
literal. -/
def tagName : TypeTag → Option String
  | .named n => some n
  | .arrayOf _ => none

/-- `BASE_TYPES.indexOf(type.name) !== -1`. -/
def isBaseType (t : TypeTag) : Bool :=
  match tagName t with
  | some n => BASE_TYPES.contains n
  | none => false

/-- `type.name === 'Array' || Array.isArray(type)`. -/
def isArrayTag (t : TypeTag) : Bool :=
  match t with
  | .named n => n = "Array"
  | .arrayOf _ => true

/-- A descriptor whose declared type is a named base-primitive tag. -/
def isBasePD (d : PropDescr) : Bool :=
  match d.type with
  | some t => isBaseType t
  | none => false

/-- `v instanceof List`. -/
def isListV (h : Heap) (v : Value) : Bool :=
  match v with
  | .ref a =>
    match h.get? a with
    | some (.list _ _) => true
    | _ => false
  | _ => false

/-- `getDefault(propertyName)`: the literal default, the factory's result,
or `undefined` when no default is declared. -/
def getDefault (d : PropDescr) : Value :=
  match d.dflt with
  | .noDflt => .undef
  | .value v => v
  | .factory r => r

/-! ## Property accessors (modelled from the spec)

The per-property getters/setters are installed by the external
connector/datasource layer (`defineProperty`); modelled from the spec: the
public setter of a registered property stores the assigned value into
`__data` (step 5 of the pipeline invokes it, and `fromObject` assigns
through it), while assignment under any other key attaches a plain own
enumerable property to the instance. -/

/-- Modelled from the spec: `self[k] = v` — the public property-assignment
path (missing from the excerpt: accessors are installed externally by
`defineProperty`).  Registered properties store into `__data`; other keys
become plain own properties. -/
def setProp (defn : ModelDef) (st : Instance) (k : String) (v : Value) :
    Instance :=
  if hasKey defn.properties k then { st with data := setA st.data k v }
  else { st with own := setA st.own k v }

/-- Modelled from the spec: `self[k]` — the public property read.
Registered properties read `__data`; other keys read the plain own
properties. -/
def getProp (defn : ModelDef) (st : Instance) (k : String) : Value :=
  if hasKey defn.properties k then lookupD st.data k else lookupD st.own k

/-! ## The initialization pipeline (`_initProperties`) -/

/-- One iteration of the partition loop (`for (var i in data)`,
`lib/model.js` lines 118–131): a registered key with a non-function value is
stored into `__data`/`__dataWas`; otherwise a relation key stores the nested
object's `keyTo` field into `__data[keyFrom]` and `__dataWas[i]` and caches
the nested object; otherwise the strict mode decides (store / throw /
silently drop). -/
def initStep1 (defn : ModelDef) (strict : Strict) (h : Heap) (st : Instance)
    (kv : String × Value) : Except JsError Instance :=
  if hasKey defn.properties kv.1 && !(isFunc kv.2) then
    .ok { st with data := setA st.data kv.1 kv.2,
                  dataWas := setA st.dataWas kv.1 kv.2 }
  else
    match alookup defn.relations kv.1 with
    | some r =>
      match getField h kv.2 r.keyTo with
      | .error e => .error e
      | .ok fk =>
        .ok { st with data := setA st.data r.keyFrom fk,
                      dataWas := setA st.dataWas kv.1 fk,
                      cachedRelations := setA st.cachedRelations kv.1 kv.2 }
    | none =>
      if strict = .strictFalse then
        .ok { st with data := setA st.data kv.1 kv.2,
                      dataWas := setA st.dataWas kv.1 kv.2 }
      else if strict = .strictThrow then
        .error (.unknownProperty kv.1)
      else
        .ok st

/-- The partition loop over the raw input, in insertion order. -/
def runStep1 (defn : ModelDef) (strict : Strict) (h : Heap) :
    List (String × Value) → Instance → Except JsError Instance
  | [], st => .ok st
  | kv :: t, st =>
    match initStep1 defn strict h st kv with
    | .ok st' => runStep1 defn strict h t st'
    | .error e => .error e

/-- The setter loop (`lib/model.js` lines 133–139): for every non-function
raw key that is a registered property or relation name, assign
`self.__data[k] || data[k]` through the public setter. -/
def runSetters (defn : ModelDef) :
    List (String × Value) → Instance → Instance
  | [], st => st
  | kv :: t, st =>
    if !(isFunc kv.2) &&
        (hasKey defn.properties kv.1 || (alookup defn.relations kv.1).isSome) then
      runSetters defn t (setProp defn st kv.1 (jsOr (lookupD st.data kv.1) kv.2))
    else
      runSetters defn t st

/-- The `strict === false` mirror loop (`lib/model.js` lines 142–148): every
non-function unregistered raw key is assigned onto the instance as a plain
own property. -/
def runMirror (defn : ModelDef) :
    List (String × Value) → Instance → Instance
  | [], st => st
  | kv :: t, st =>
    if !(isFunc kv.2) && !(hasKey defn.properties kv.1) then
      runMirror defn t (setProp defn st kv.1 (jsOr (lookupD st.data kv.1) kv.2))
    else
      runMirror defn t st

/-- The defaults / baseline re-snapshot pass (`lib/model.js` lines 150–158):
for every registered property in registry order, fill
`__data`/`__dataWas` from the default when `__data` holds `undefined`,
else re-snapshot `__dataWas` from `__data`. -/
def runDefaults : List (String × PropDescr) → Instance → Instance
  | [], st => st
  | pd :: t, st =>
    if lookupD st.data pd.1 = .undef then
      let d := getDefault pd.2
      runDefaults t { st with data := setA st.data pd.1 d,
                              dataWas := setA st.dataWas pd.1 d }
    else
      runDefaults t { st with dataWas := setA st.dataWas pd.1 (lookupD st.data pd.1) }

/-- The JSON-parse sub-step of the coercion pass (`lib/model.js` lines
165–171): a truthy non-object value is JSON-parsed from its string form,
falling back to plain string coercion when the parse fails. -/
def coerceParse (st : Instance) (p : String) : Instance :=
  if typeofV (lookupD st.data p) ≠ "object" && truthy (lookupD st.data p) then
    match jsonParse (jsToString (lookupD st.data p)) with
    | some v2 => { st with data := setA st.data p v2 }
    | none => { st with data := setA st.data p (.str (jsToString (lookupD st.data p))) }
  else st

/-- The type-coercion pass (`lib/model.js` lines 160–179): for every
registered property whose tag is not a base primitive, run the JSON-parse
sub-step, then wrap an array-tagged property not already holding an Ordered
List Container into a freshly allocated one.  Reading `.name` of an absent
type declaration is the JS TypeError. -/
def runCoerce : List (String × PropDescr) → Heap → Instance →
    Except JsError (Heap × Instance)
  | [], h, st => .ok (h, st)
  | pd :: t, h, st =>
    match pd.2.type with
    | none => .error (.typeError ("Cannot read property name of undefined"))
    | some ty =>
      if !(isBaseType ty) then
        if isArrayTag ty then
          if !(isListV h (lookupD (coerceParse st pd.1).data pd.1)) then
            runCoerce t (h ++ [HObj.list (lookupD (coerceParse st pd.1).data pd.1) ty])
              { coerceParse st pd.1 with
                  data := setA (coerceParse st pd.1).data pd.1 (.ref h.length) }
          else
            runCoerce t h (coerceParse st pd.1)
        else
          runCoerce t h (coerceParse st pd.1)
      else
        runCoerce t h st

/-- `if (data.__cachedRelations) this.__cachedRelations =
data.__cachedRelations;` — adopting pre-resolved relations.  The JS
assignment adopts the object by reference; the model copies its fields
(adoption of a non-object truthy value, a JS degenerate case, adopts no
fields).  No modelled operation later aliases the adopted object, so the
flattening is unobservable. -/
def adoptedFields (h : Heap) (v : Value) : List (String × Value) :=
  match v with
  | .ref a =>
    match h.get? a with
    | some (.plain fields) => fields
    | _ => []
  | _ => []

/-- The resolved strict mode: the explicit option when present, else the
registry setting (`if (strict === undefined) strict = ctor.definition.settings.strict`). -/
def initStrict (defn : ModelDef) (opts : Options) : Strict :=
  opts.strict.getD defn.settingsStrict

/-- The freshly allocated per-instance stores, with pre-resolved relations
adopted from the raw input when present and truthy. -/
def initSt0 (defn : ModelDef) (h : Heap) (rawData : List (String × Value))
    (opts : Options) : Instance :=
  { data := [], dataWas := [],
    cachedRelations :=
      match alookup rawData "__cachedRelations" with
      | some v => if truthy v then adoptedFields h v else []
      | none => [],
    own := [], strict := initStrict defn opts }

/-- The pipeline after the partition loop: the setter loop (when
`applySetters === true`), the mirror loop (when `strict === false`), the
defaults/re-snapshot pass, then the coercion pass. -/
def initRest (defn : ModelDef) (h : Heap) (rawData : List (String × Value))
    (opts : Options) (st1 : Instance) : Except JsError (Heap × Instance) :=
  let st2 := if opts.applySetters = some true then runSetters defn rawData st1 else st1
  let st3 := if initStrict defn opts = .strictFalse then runMirror defn rawData st2 else st2
  runCoerce defn.properties h (runDefaults defn.properties st3)

/-- `ModelBaseClass.prototype._initProperties(data, options)`: resolve the
strict mode, allocate the empty stores, adopt pre-resolved relations, then
run the partition loop, the setter loop, the mirror loop, the
defaults/re-snapshot pass and the coercion pass.  The `'initialize'` hook
notification is a fire-and-forget external call with no instance-state
effect and is not modelled. -/
def initProperties (defn : ModelDef) (h : Heap) (rawData : List (String × Value))
    (opts : Options) : Except JsError (Heap × Instance) :=
  match runStep1 defn (initStrict defn opts) h rawData (initSt0 defn h rawData opts) with
  | .error e => .error e
  | .ok st1 => initRest defn h rawData opts st1

/-- `new ModelBaseClass(data, options)`: default `applySetters` to `true`
when absent, then initialize. -/
def modelNew (defn : ModelDef) (h : Heap) (rawData : List (String × Value))
    (opts : Options) : Except JsError (Heap × Instance) :=
  initProperties defn h rawData
    { applySetters := some (opts.applySetters.getD true), strict := opts.strict }

/-! ## Change tracker -/

/-- `propertyChanged(name)`: `this.__data[name] !== this.__dataWas[name]`.
JS `===` is value equality on primitives and address equality on objects,
which is structural equality of `Value`. -/
def propertyChanged (st : Instance) (p : String) : Bool :=
  !(lookupD st.data p == lookupD st.dataWas p)

/-! ## Serializer -/

/-- `val.toObject` is truthy: of the modelled heap values, exactly the
Ordered List Container instances expose a `toObject` method (plain objects
and arrays have none, and nested model instances are not heap values in
this model). -/
def hasToObjectV (h : Heap) (v : Value) : Bool := isListV h v

/-- Modelled from the spec: the Ordered List Container's `toObject`
(`lib/list.js`, missing from the excerpt) serializes the container back to
the plain sequence it wraps; per-element recursion is omitted because every
modelled element value is primitive. -/
def listToObject (h : Heap) (a : Nat) : Value :=
  match h.get? a with
  | some (.list w _) => w
  | _ => (.undef)

/-- The repeated emission pattern of `toObject`:
`val !== undefined && val !== null && val.toObject ? val.toObject(!schemaLess) : val`. -/
def emitVal (h : Heap) (v : Value) : Value :=
  if v ≠ .undef && v ≠ .null && hasToObjectV h v then
    match v with
    | .ref a => listToObject h a
    | _ => v
  else v

/-- Pass A of `toObject` (`forEachProperty`): every registered property is
emitted — recursively for container values, as-is for other present values,
and as an explicit `null` when `__data` has no entry. -/
def toObjectProps (defn : ModelDef) (h : Heap) (st : Instance) :
    List (String × PropDescr) → List (String × Value) → List (String × Value)
  | [], out => out
  | pd :: t, out =>
    toObjectProps defn h st t
      (if isListV h (getProp defn st pd.1) then
        setA out pd.1 (emitVal h (getProp defn st pd.1))
      else if hasKey st.data pd.1 then
        setA out pd.1 (emitVal h (getProp defn st pd.1))
      else
        setA out pd.1 .null)

/-- Pass B of `toObject` (schema-less only): every own enumerable instance
property not already emitted. -/
def toObjectOwn (defn : ModelDef) (h : Heap) (st : Instance) :
    List (String × Value) → List (String × Value) → List (String × Value)
  | [], out => out
  | kv :: t, out =>
    toObjectOwn defn h st t
      (if !(hasKey out kv.1) then
        setA out kv.1 (emitVal h (getProp defn st kv.1))
      else out)

/-- Pass C of `toObject` (schema-less only): every `__data` key not already
emitted, read through the instance when it is also an own property. -/
def toObjectData (defn : ModelDef) (h : Heap) (st : Instance) :
    List (String × Value) → List (String × Value) → List (String × Value)
  | [], out => out
  | kv :: t, out =>
    toObjectData defn h st t
      (if !(hasKey out kv.1) then
        setA out kv.1 (emitVal h
          (if hasKey st.own kv.1 then getProp defn st kv.1 else lookupD st.data kv.1))
      else out)

/-- `toObject(onlySchema)` (`lib/model.js` lines 239–291): `onlySchema`
defaults to `true`; schema-less mode is entered when the instance strict
mode is `false` or the caller passed a falsy `onlySchema`. -/
def toObject (defn : ModelDef) (h : Heap) (st : Instance)
    (onlySchemaArg : Option Bool) : List (String × Value) :=
  if (st.strict = .strictFalse) || !(onlySchemaArg.getD true) then
    toObjectData defn h st st.data
      (toObjectOwn defn h st st.own (toObjectProps defn h st defn.properties []))
  else
    toObjectProps defn h st defn.properties []

/-- `toJSON()`: always `toObject(false)`. -/
def toJSON (defn : ModelDef) (h : Heap) (st : Instance) :
    List (String × Value) :=
  toObject defn h st (some false)

/-- `fromObject(obj)`: bulk assignment of every key through the public
property-assignment path. -/
def fromObject (defn : ModelDef) (st : Instance)
    (obj : List (String × Value)) : Instance :=
  match obj with
  | [] => st
  | kv :: t => fromObject defn (setProp defn st kv.1 kv.2) t

/-! ## `getPropertyType` -/

/-- `ModelBaseClass.getPropertyType(propName)` (`lib/model.js` lines
205–216): `null` when the property is not part of the definition; an error
when it declares no type; otherwise `prop.type.name` (which is `undefined`
for an array-literal type tag). -/
def getPropertyType (defn : ModelDef) (propName : String) :
    Except JsError Value :=
  match alookup defn.properties propName with
  | none => .ok .null
  | some prop =>
    match prop.type with
    | none => .error (.missingType propName)
    | some t =>
      .ok (match tagName t with
        | some n => .str n
        | none => .undef)

/-! ## Helpers for extracting concrete construction results -/

instance {ε α : Type} [DecidableEq ε] [DecidableEq α] : DecidableEq (Except ε α) :=
  fun a b =>
    match a, b with
    | .ok x, .ok y =>
      if h : x = y then isTrue (by rw [h])
      else isFalse (by intro hh; cases hh; exact h rfl)
    | .error e, .error f =>
      if h : e = f then isTrue (by rw [h])
      else isFalse (by intro hh; cases hh; exact h rfl)
    | .ok _, .error _ => isFalse (by intro hh; cases hh)
    | .error _, .ok _ => isFalse (by intro hh; cases hh)

/-- The heap component of a successful construction (dummy on error). -/
def resHeap (r : Except JsError (Heap × Instance)) : Heap :=
  match r with
  | .ok (h, _) => h
  | .error _ => []

/-- The instance component of a successful construction (dummy on error). -/
def resInst (r : Except JsError (Heap × Instance)) : Instance :=
  match r with
  | .ok (_, st) => st
  | .error _ =>
    { data := [], dataWas := [], cachedRelations := [], own := [],
      strict := .strictOther }

/-! ## Association-list lemmas -/

theorem alookup_setA_self {α : Type} (l : List (String × α)) (k : String) (v : α) :
    alookup (setA l k v) k = some v := by
  induction l with
  | nil => simp [setA, alookup]
  | cons kv t ih =>
    obtain ⟨k', v'⟩ := kv
    by_cases hk : k' = k
    · simp [setA, alookup, hk]
    · simp [setA, alookup, hk, ih]

theorem alookup_setA_ne {α : Type} (l : List (String × α)) (k k' : String) (v : α)
    (h : k' ≠ k) : alookup (setA l k v) k' = alookup l k' := by
  have hne : ¬ (k = k') := fun hh => h hh.symm
  induction l with
  | nil => simp [setA, alookup, hne]
  | cons kv t ih =>
    obtain ⟨k0, v0⟩ := kv
    by_cases hk : k0 = k
    · subst hk
      simp [setA, alookup, hne]
    · simp only [setA, hk, if_false, alookup]
      by_cases hk' : k0 = k'
      · simp [hk']
      · simp [hk', ih]

theorem setA_eq_of_alookup {α : Type} (l : List (String × α)) (k : String) (v : α)
    (h : alookup l k = some v) : setA l k v = l := by
  induction l with
  | nil => simp [alookup] at h
  | cons kv t ih =>
    obtain ⟨k0, v0⟩ := kv
    by_cases hk : k0 = k
    · subst hk
      simp [alookup] at h
      subst h
      simp [setA]
    · simp only [alookup, hk, if_false] at h
      simp [setA, hk, ih h]

theorem setA_eq_append {α : Type} (l : List (String × α)) (k : String) (v : α)
    (h : alookup l k = none) : setA l k v = l ++ [(k, v)] := by
  induction l with
  | nil => simp [setA]
  | cons kv t ih =>
    obtain ⟨k0, v0⟩ := kv
    by_cases hk : k0 = k
    · simp [alookup, hk] at h
    · simp only [alookup, hk, if_false] at h
      simp [setA, hk, ih h]

theorem hasKey_setA_iff {α : Type} (l : List (String × α)) (k k' : String) (v : α) :
    hasKey (setA l k v) k' = true ↔ (k' = k ∨ hasKey l k' = true) := by
  by_cases hk : k' = k
  · subst hk
    simp [hasKey, alookup_setA_self]
  · simp [hasKey, alookup_setA_ne l k k' v hk, hk]

theorem alookup_eq_none {α : Type} (l : List (String × α)) (k : String)
    (h : k ∉ l.map Prod.fst) : alookup l k = none := by
  induction l with
  | nil => rfl
  | cons kv t ih =>
    simp only [List.map_cons, List.mem_cons, not_or] at h
    simp [alookup, Ne.symm h.1, ih h.2]

theorem mem_keys_of_alookup {α : Type} (l : List (String × α)) (k : String) (v : α)
    (h : alookup l k = some v) : k ∈ l.map Prod.fst := by
  induction l with
  | nil => simp [alookup] at h
  | cons kv t ih =>
    by_cases hk : kv.1 = k
    · simp [hk]
    · simp only [alookup, hk, if_false] at h
      simp [ih h]

theorem mem_of_alookup {α : Type} (l : List (String × α)) (k : String) (v : α)
    (h : alookup l k = some v) : (k, v) ∈ l := by
  induction l with
  | nil => simp [alookup] at h
  | cons kv t ih =>
    obtain ⟨k0, v0⟩ := kv
    by_cases hk : k0 = k
    · subst hk
      simp [alookup] at h
      subst h
      simp
    · simp only [alookup, hk, if_false] at h
      simp [ih h]

theorem alookup_of_mem_nodup {α : Type} (l : List (String × α)) (k : String) (v : α)
    (hmem : (k, v) ∈ l) (hnd : (l.map Prod.fst).Nodup) : alookup l k = some v := by
  induction l with
  | nil => simp at hmem
  | cons kv t ih =>
    obtain ⟨k0, v0⟩ := kv
    simp only [List.map_cons, List.nodup_cons] at hnd
    rcases List.mem_cons.mp hmem with heq | htail
    · cases heq
      simp [alookup]
    · have hk0 : k0 ≠ k := by
        intro hcontra
        subst hcontra
        exact hnd.1 (List.mem_map.mpr ⟨(k0, v), htail, rfl⟩)
      simp [alookup, hk0, ih htail hnd.2]

/-! ## Value lemmas -/

theorem jsOr_self (v : Value) : jsOr v v = v := by
  unfold jsOr
  split <;> rfl

theorem jsOr_of_truthy (a b : Value) (h : truthy a = true) : jsOr a b = a := by
  simp [jsOr, h]

theorem isListV_of_prim (h : Heap) (v : Value) (hp : isPrim v = true) :
    isListV h v = false := by
  cases v <;> simp_all [isPrim, isListV]

theorem emitVal_of_prim (h : Heap) (v : Value) (hp : isPrim v = true) :
    emitVal h v = v := by
  unfold emitVal hasToObjectV
  rw [isListV_of_prim h v hp]
  simp

theorem isListV_append (h e : Heap) (v : Value) (hl : isListV h v = true) :
    isListV (h ++ e) v = true := by
  cases v with
  | ref a =>
    simp only [isListV] at hl ⊢
    cases hg : h.get? a with
    | none => rw [hg] at hl; simp at hl
    | some o =>
      have ha : a < h.length := (List.get?_eq_some.mp hg).1
      rw [List.get?_append ha, hg]
      rw [hg] at hl
      exact hl
  | _ => simp [isListV] at hl

/-! ## Structural lemmas about the public setter -/

theorem setProp_dataWas (defn : ModelDef) (st : Instance) (k : String) (v : Value) :
    (setProp defn st k v).dataWas = st.dataWas := by
  unfold setProp
  split <;> rfl

theorem setProp_cached (defn : ModelDef) (st : Instance) (k : String) (v : Value) :
    (setProp defn st k v).cachedRelations = st.cachedRelations := by
  unfold setProp
  split <;> rfl

theorem setProp_strict (defn : ModelDef) (st : Instance) (k : String) (v : Value) :
    (setProp defn st k v).strict = st.strict := by
  unfold setProp
  split <;> rfl

theorem setProp_reg (defn : ModelDef) (st : Instance) (k : String) (v : Value)
    (h : hasKey defn.properties k = true) :
    setProp defn st k v = { st with data := setA st.data k v } := by
  simp [setProp, h]

theorem setProp_not_reg (defn : ModelDef) (st : Instance) (k : String) (v : Value)
    (h : hasKey defn.properties k = false) :
    setProp defn st k v = { st with own := setA st.own k v } := by
  simp [setProp, h]

/-! ## Structural lemmas about the partition loop -/

theorem initStep1_ok_own (defn : ModelDef) (s : Strict) (h : Heap) (st st₂ : Instance)
    (kv : String × Value) (hstep : initStep1 defn s h st kv = .ok st₂) :
    st₂.own = st.own ∧ st₂.strict = st.strict := by
  unfold initStep1 at hstep
  split at hstep
  · cases hstep
    exact ⟨rfl, rfl⟩
  · split at hstep
    · split at hstep
      · cases hstep
      · cases hstep
        exact ⟨rfl, rfl⟩
    · split at hstep
      · cases hstep
        exact ⟨rfl, rfl⟩
      · split at hstep
        · cases hstep
        · cases hstep
          exact ⟨rfl, rfl⟩

theorem runStep1_ok_own (defn : ModelDef) (s : Strict) (h : Heap)
    (raw : List (String × Value)) (st st' : Instance)
    (hrun : runStep1 defn s h raw st = .ok st') :
    st'.own = st.own ∧ st'.strict = st.strict := by
  induction raw generalizing st with
  | nil =>
    cases hrun
    exact ⟨rfl, rfl⟩
  | cons kv t ih =>
    unfold runStep1 at hrun
    split at hrun
    · next st₂ hstep =>
      have h1 := initStep1_ok_own defn s h st st₂ kv hstep
      have h2 := ih st₂ hrun
      exact ⟨h2.1.trans h1.1, h2.2.trans h1.2⟩
    · cases hrun

/-! ## Structural lemmas about the setter loop -/

theorem runSetters_dataWas (defn : ModelDef) (raw : List (String × Value))
    (st : Instance) : (runSetters defn raw st).dataWas = st.dataWas := by
  induction raw generalizing st with
  | nil => rfl
  | cons kv t ih =>
    unfold runSetters
    split
    · rw [ih, setProp_dataWas]
    · exact ih st

theorem runSetters_cached (defn : ModelDef) (raw : List (String × Value))
    (st : Instance) : (runSetters defn raw st).cachedRelations = st.cachedRelations := by
  induction raw generalizing st with
  | nil => rfl
  | cons kv t ih =>
    unfold runSetters
    split
    · rw [ih, setProp_cached]
    · exact ih st

theorem runSetters_strict (defn : ModelDef) (raw : List (String × Value))
    (st : Instance) : (runSetters defn raw st).strict = st.strict := by
  induction raw generalizing st with
  | nil => rfl
  | cons kv t ih =>
    unfold runSetters
    split
    · rw [ih, setProp_strict]
    · exact ih st

/-- Along the setter loop, a `__data` entry that already holds the raw value
of its own key (or any entry whose key never recurs in the input) is
preserved: the loop assigns `__data[k] || data[k]`, which re-stores the same
value. -/
theorem runSetters_data_at (defn : ModelDef) (raw : List (String × Value))
    (st : Instance) (p : String) (v : Value)
    (H : alookup st.data p = some v)
    (Hv : ∀ kv ∈ raw, kv.1 = p → kv.2 = v ∨ truthy v = true) :
    alookup (runSetters defn raw st).data p = some v := by
  induction raw generalizing st with
  | nil => exact H
  | cons kv t ih =>
    unfold runSetters
    split
    · apply ih
      · by_cases hp : kv.1 = p
        · have hj : jsOr (lookupD st.data kv.1) kv.2 = v := by
            rw [hp]
            unfold lookupD
            rw [H]
            simp only [Option.getD_some]
            rcases Hv kv (List.mem_cons_self kv t) hp with hv | ht
            · rw [hv, jsOr_self]
            · exact jsOr_of_truthy v kv.2 ht
          unfold setProp
          split
          · rw [hj, hp]
            exact alookup_setA_self st.data p v
          · exact H
        · unfold setProp
          split
          · simpa [alookup_setA_ne st.data kv.1 p _ (fun hh => hp hh.symm)] using H
          · exact H
      · intro kv' hkv' hp'
        exact Hv kv' (List.mem_cons_of_mem kv hkv') hp'
    · apply ih st H
      intro kv' hkv' hp'
      exact Hv kv' (List.mem_cons_of_mem kv hkv') hp'

/-- The setter loop never touches keys absent from the raw input. -/
theorem runSetters_frame (defn : ModelDef) (raw : List (String × Value))
    (st : Instance) (q : String)
    (Hq : ∀ kv ∈ raw, kv.1 ≠ q) :
    alookup (runSetters defn raw st).data q = alookup st.data q ∧
    alookup (runSetters defn raw st).own q = alookup st.own q := by
  induction raw generalizing st with
  | nil => exact ⟨rfl, rfl⟩
  | cons kv t ih =>
    have hq : kv.1 ≠ q := Hq kv (List.mem_cons_self kv t)
    have Hq' : ∀ kv' ∈ t, kv'.1 ≠ q := fun kv' hkv' => Hq kv' (List.mem_cons_of_mem kv hkv')
    unfold runSetters
    split
    · by_cases hreg : hasKey defn.properties kv.1 = true
      · rw [setProp_reg defn st kv.1 (jsOr (lookupD st.data kv.1) kv.2) hreg]
        have hrec := ih { st with data := setA st.data kv.1 (jsOr (lookupD st.data kv.1) kv.2) } Hq'
        constructor
        · rw [hrec.1]
          exact alookup_setA_ne st.data kv.1 q _ (fun hh => hq hh.symm)
        · rw [hrec.2]
      · rw [setProp_not_reg defn st kv.1 (jsOr (lookupD st.data kv.1) kv.2)
          (Bool.eq_false_iff.mpr hreg)]
        have hrec := ih { st with own := setA st.own kv.1 (jsOr (lookupD st.data kv.1) kv.2) } Hq'
        constructor
        · rw [hrec.1]
        · rw [hrec.2]
          exact alookup_setA_ne st.own kv.1 q _ (fun hh => hq hh.symm)
    · exact ih st Hq'

/-- When every raw key is a registered property already holding its raw
value in `__data`, the setter loop is the identity. -/
theorem runSetters_id (defn : ModelDef) (raw : List (String × Value))
    (st : Instance)
    (Hall : ∀ kv ∈ raw, hasKey defn.properties kv.1 = true ∧
      alookup st.data kv.1 = some kv.2) :
    runSetters defn raw st = st := by
  induction raw generalizing st with
  | nil => rfl
  | cons kv t ih =>
    have hh := Hall kv (List.mem_cons_self kv t)
    have Hall' : ∀ kv' ∈ t, hasKey defn.properties kv'.1 = true ∧
        alookup st.data kv'.1 = some kv'.2 :=
      fun kv' hkv' => Hall kv' (List.mem_cons_of_mem kv hkv')
    unfold runSetters
    split
    · have hj : jsOr (lookupD st.data kv.1) kv.2 = kv.2 := by
        unfold lookupD
        rw [hh.2]
        exact jsOr_self kv.2
      rw [hj, setProp_reg defn st kv.1 kv.2 hh.1,
        setA_eq_of_alookup st.data kv.1 kv.2 hh.2]
      exact ih _ Hall'
    · exact ih st Hall'

/-! ## Structural lemmas about the mirror loop -/

theorem runMirror_stores (defn : ModelDef) (raw : List (String × Value))
    (st : Instance) :
    (runMirror defn raw st).data = st.data ∧
    (runMirror defn raw st).dataWas = st.dataWas ∧
    (runMirror defn raw st).cachedRelations = st.cachedRelations ∧
    (runMirror defn raw st).strict = st.strict := by
  induction raw generalizing st with
  | nil => exact ⟨rfl, rfl, rfl, rfl⟩
  | cons kv t ih =>
    unfold runMirror
    split
    · next hcond =>
      have hreg : hasKey defn.properties kv.1 = false := by
        rcases Bool.and_eq_true .. |>.mp hcond with ⟨-, h2⟩
        simpa using h2
      rw [setProp_not_reg defn st kv.1 _ hreg]
      exact ih _
    · exact ih st

/-- The mirror loop never touches own properties under keys absent from the
raw input. -/
theorem runMirror_own_frame (defn : ModelDef) (raw : List (String × Value))
    (st : Instance) (q : String)
    (Hq : ∀ kv ∈ raw, kv.1 ≠ q) :
    alookup (runMirror defn raw st).own q = alookup st.own q := by
  induction raw generalizing st with
  | nil => rfl
  | cons kv t ih =>
    have hq : kv.1 ≠ q := Hq kv (List.mem_cons_self kv t)
    have Hq' : ∀ kv' ∈ t, kv'.1 ≠ q := fun kv' hkv' => Hq kv' (List.mem_cons_of_mem kv hkv')
    unfold runMirror
    split
    · rw [ih _ Hq']
      unfold setProp
      split
      · rfl
      · exact alookup_setA_ne st.own kv.1 q _ (fun hh => hq hh.symm)
    · exact ih st Hq'

/-- When every raw key is registered, the mirror loop is the identity. -/
theorem runMirror_all_reg (defn : ModelDef) (raw : List (String × Value))
    (st : Instance)
    (Hall : ∀ kv ∈ raw, hasKey defn.properties kv.1 = true) :
    runMirror defn raw st = st := by
  induction raw generalizing st with
  | nil => rfl
  | cons kv t ih =>
    unfold runMirror
    split
    · next hcond =>
      rcases Bool.and_eq_true .. |>.mp hcond with ⟨-, h2⟩
      rw [Hall kv (List.mem_cons_self kv t)] at h2
      simp at h2
    · exact ih st (fun kv' hkv' => Hall kv' (List.mem_cons_of_mem kv hkv'))

/-- A mirrored unregistered key ends up as an own property holding its
`__data` value. -/
theorem runMirror_own_at (defn : ModelDef) (raw : List (String × Value))
    (st : Instance) (k : String) (v : Value)
    (hnd : (raw.map Prod.fst).Nodup)
    (hmem : (k, v) ∈ raw)
    (hreg : hasKey defn.properties k = false)
    (hf : isFunc v = false)
    (hdata : alookup st.data k = some v) :
    alookup (runMirror defn raw st).own k = some v := by
  induction raw generalizing st with
  | nil => simp at hmem
  | cons kv t ih =>
    simp only [List.map_cons, List.nodup_cons] at hnd
    rcases List.mem_cons.mp hmem with heq | htail
    · cases heq
      have hk_not : ∀ kv' ∈ t, kv'.1 ≠ k := by
        intro kv' hkv' hcontra
        exact hnd.1 (List.mem_map.mpr ⟨kv', hkv', hcontra⟩)
      unfold runMirror
      rw [if_pos (by simp [hf, hreg])]
      rw [runMirror_own_frame defn t _ k hk_not]
      rw [setProp_not_reg defn st k _ hreg]
      have hj : jsOr (lookupD st.data k) v = v := by
        unfold lookupD
        rw [hdata]
        simp only [Option.getD_some]
        exact jsOr_self v
      simp only [hj]
      exact alookup_setA_self st.own k v
    · have hk : kv.1 ≠ k := by
        intro hcontra
        exact hnd.1 (List.mem_map.mpr ⟨(k, v), htail, hcontra.symm⟩)
      unfold runMirror
      split
      · apply ih _ hnd.2 htail
        unfold setProp
        split
        · simpa [alookup_setA_ne st.data kv.1 k _ (fun hh => hk hh.symm)] using hdata
        · exact hdata
      · exact ih st hnd.2 htail hdata

/-! ## Structural lemmas about the defaults pass -/

theorem runDefaults_other (props : List (String × PropDescr)) (st : Instance) :
    (runDefaults props st).cachedRelations = st.cachedRelations ∧
    (runDefaults props st).own = st.own ∧
    (runDefaults props st).strict = st.strict := by
  induction props generalizing st with
  | nil => exact ⟨rfl, rfl, rfl⟩
  | cons pd t ih =>
    unfold runDefaults
    split
    · exact ih _
    · exact ih _

theorem runDefaults_frame (props : List (String × PropDescr)) (st : Instance)
    (q : String) (Hq : q ∉ props.map Prod.fst) :
    alookup (runDefaults props st).data q = alookup st.data q ∧
    alookup (runDefaults props st).dataWas q = alookup st.dataWas q := by
  induction props generalizing st with
  | nil => exact ⟨rfl, rfl⟩
  | cons pd t ih =>
    simp only [List.map_cons, List.mem_cons, not_or] at Hq
    have hne : q ≠ pd.1 := Hq.1
    have h1 : pd.1 ≠ q := fun hh => hne hh.symm
    unfold runDefaults
    split
    · have hrec := ih
        { st with
            data := setA st.data pd.1 (getDefault pd.2),
            dataWas := setA st.dataWas pd.1 (getDefault pd.2) }
        Hq.2
      refine ⟨hrec.1.trans ?_, hrec.2.trans ?_⟩
      · exact alookup_setA_ne st.data pd.1 q _ hne
      · exact alookup_setA_ne st.dataWas pd.1 q _ hne
    · have hrec := ih
        { st with dataWas := setA st.dataWas pd.1 (lookupD st.data pd.1) }
        Hq.2
      refine ⟨hrec.1, hrec.2.trans ?_⟩
      exact alookup_setA_ne st.dataWas pd.1 q _ hne

/-- The defaults pass at a registered property: fill both stores from the
default when `__data` holds `undefined`, else re-snapshot `__dataWas`. -/
theorem runDefaults_at (props : List (String × PropDescr)) (st : Instance)
    (p : String) (d : PropDescr)
    (hnd : (props.map Prod.fst).Nodup) (hmem : (p, d) ∈ props) :
    (lookupD st.data p = .undef →
      alookup (runDefaults props st).data p = some (getDefault d) ∧
      alookup (runDefaults props st).dataWas p = some (getDefault d)) ∧
    (lookupD st.data p ≠ .undef →
      alookup (runDefaults props st).data p = alookup st.data p ∧
      alookup (runDefaults props st).dataWas p = some (lookupD st.data p)) := by
  induction props generalizing st with
  | nil => simp at hmem
  | cons pd t ih =>
    simp only [List.map_cons, List.nodup_cons] at hnd
    rcases List.mem_cons.mp hmem with heq | htail
    · cases heq
      have hp_not : p ∉ t.map Prod.fst := hnd.1
      constructor
      · intro hu
        unfold runDefaults
        rw [if_pos hu]
        have hfr := runDefaults_frame t
          { st with
              data := setA st.data p (getDefault d),
              dataWas := setA st.dataWas p (getDefault d) }
          p hp_not
        refine ⟨hfr.1.trans ?_, hfr.2.trans ?_⟩
        · exact alookup_setA_self st.data p (getDefault d)
        · exact alookup_setA_self st.dataWas p (getDefault d)
      · intro hne
        unfold runDefaults
        rw [if_neg hne]
        have hfr := runDefaults_frame t
          { st with dataWas := setA st.dataWas p (lookupD st.data p) }
          p hp_not
        refine ⟨hfr.1, hfr.2.trans ?_⟩
        exact alookup_setA_self st.dataWas p (lookupD st.data p)
    · have hk : pd.1 ≠ p := by
        intro hcontra
        exact hnd.1 (hcontra ▸ List.mem_map.mpr ⟨(p, d), htail, rfl⟩)
      have hlook : ∀ st₂ : Instance, alookup st₂.data p = alookup st.data p →
          lookupD st₂.data p = lookupD st.data p := by
        intro st₂ hh
        unfold lookupD
        rw [hh]
      unfold runDefaults
      split
      · have hrec := ih
          { st with
              data := setA st.data pd.1 (getDefault pd.2),
              dataWas := setA st.dataWas pd.1 (getDefault pd.2) }
          hnd.2 htail
        have hd : alookup (setA st.data pd.1 (getDefault pd.2)) p = alookup st.data p :=
          alookup_setA_ne st.data pd.1 p _ (Ne.symm hk)
        rw [hlook _ hd] at hrec
        rw [hd] at hrec
        exact hrec
      · have hrec := ih
          { st with dataWas := setA st.dataWas pd.1 (lookupD st.data pd.1) }
          hnd.2 htail
        exact hrec

/-- Every registered property has a `__data` entry after the defaults
pass. -/
theorem runDefaults_hasKey (props : List (String × PropDescr)) (st : Instance)
    (p : String) (d : PropDescr)
    (hnd : (props.map Prod.fst).Nodup) (hmem : (p, d) ∈ props) :
    hasKey (runDefaults props st).data p = true := by
  have hat := runDefaults_at props st p d hnd hmem
  by_cases hu : lookupD st.data p = .undef
  · rw [hasKey, (hat.1 hu).1]
    rfl
  · rw [hasKey, (hat.2 hu).1]
    cases hl : alookup st.data p with
    | none =>
      exfalso
      apply hu
      unfold lookupD
      rw [hl]
      rfl
    | some w => rfl

/-- The defaults pass only adds registered keys to `__data`. -/
theorem runDefaults_keys (props : List (String × PropDescr)) (st : Instance)
    (q : String) (h : hasKey (runDefaults props st).data q = true) :
    hasKey st.data q = true ∨ q ∈ props.map Prod.fst := by
  induction props generalizing st with
  | nil => exact Or.inl h
  | cons pd t ih =>
    unfold runDefaults at h
    split at h
    · rcases ih _ h with hk | hmem
      · rw [hasKey] at hk
        by_cases hq : q = pd.1
        · exact Or.inr (by simp [hq])
        · rw [alookup_setA_ne st.data pd.1 q _ hq] at hk
          exact Or.inl hk
      · exact Or.inr (by simp [hmem])
    · rcases ih _ h with hk | hmem
      · exact Or.inl hk
      · exact Or.inr (by simp [hmem])

/-! ## Structural lemmas about the coercion pass -/

theorem lookupD_congr (l l' : List (String × Value)) (q : String)
    (h : alookup l q = alookup l' q) : lookupD l q = lookupD l' q := by
  unfold lookupD
  rw [h]

theorem alookup_of_lookupD_ne (l : List (String × Value)) (k : String)
    (h : lookupD l k ≠ .undef) : alookup l k = some (lookupD l k) := by
  unfold lookupD at *
  cases hl : alookup l k with
  | none =>
    rw [hl] at h
    simp at h
  | some w => simp [hl]

theorem isBaseType_of_array (t : TypeTag) (h : isArrayTag t = true) :
    isBaseType t = false := by
  cases t with
  | named n =>
    simp only [isArrayTag, decide_eq_true_eq] at h
    subst h
    decide
  | arrayOf e => rfl

theorem coerceParse_misc (st : Instance) (p : String) :
    (coerceParse st p).dataWas = st.dataWas ∧
    (coerceParse st p).cachedRelations = st.cachedRelations ∧
    (coerceParse st p).own = st.own ∧
    (coerceParse st p).strict = st.strict := by
  unfold coerceParse
  split
  · split <;> exact ⟨rfl, rfl, rfl, rfl⟩
  · exact ⟨rfl, rfl, rfl, rfl⟩

theorem coerceParse_frame (st : Instance) (p q : String) (hq : q ≠ p) :
    alookup (coerceParse st p).data q = alookup st.data q := by
  unfold coerceParse
  split
  · split
    · exact alookup_setA_ne st.data p q _ hq
    · exact alookup_setA_ne st.data p q _ hq
  · rfl

theorem coerceParse_skip (st : Instance) (p : String)
    (h : (typeofV (lookupD st.data p) ≠ "object" && truthy (lookupD st.data p)) = false) :
    coerceParse st p = st := by
  unfold coerceParse
  rw [h]
  simp

theorem coerceParse_of_obj (st : Instance) (p : String)
    (h : typeofV (lookupD st.data p) = "object") : coerceParse st p = st := by
  apply coerceParse_skip
  simp [h]

theorem runCoerce_misc (props : List (String × PropDescr)) (h : Heap)
    (st : Instance) (h' : Heap) (st' : Instance)
    (hc : runCoerce props h st = .ok (h', st')) :
    st'.dataWas = st.dataWas ∧ st'.cachedRelations = st.cachedRelations ∧
    st'.own = st.own ∧ st'.strict = st.strict := by
  induction props generalizing h st with
  | nil =>
    unfold runCoerce at hc
    cases hc
    exact ⟨rfl, rfl, rfl, rfl⟩
  | cons pd t ih =>
    unfold runCoerce at hc
    split at hc
    · cases hc
    · split at hc
      · split at hc
        · split at hc
          · have hrec := ih _ _ hc
            have hcp := coerceParse_misc st pd.1
            exact ⟨hrec.1.trans hcp.1, hrec.2.1.trans hcp.2.1,
              hrec.2.2.1.trans hcp.2.2.1, hrec.2.2.2.trans hcp.2.2.2⟩
          · have hrec := ih _ _ hc
            have hcp := coerceParse_misc st pd.1
            exact ⟨hrec.1.trans hcp.1, hrec.2.1.trans hcp.2.1,
              hrec.2.2.1.trans hcp.2.2.1, hrec.2.2.2.trans hcp.2.2.2⟩
        · have hrec := ih _ _ hc
          have hcp := coerceParse_misc st pd.1
          exact ⟨hrec.1.trans hcp.1, hrec.2.1.trans hcp.2.1,
            hrec.2.2.1.trans hcp.2.2.1, hrec.2.2.2.trans hcp.2.2.2⟩
      · exact ih _ _ hc

theorem runCoerce_heap_ext (props : List (String × PropDescr)) (h : Heap)
    (st : Instance) (h' : Heap) (st' : Instance)
    (hc : runCoerce props h st = .ok (h', st')) :
    ∃ e, h' = h ++ e := by
  induction props generalizing h st with
  | nil =>
    unfold runCoerce at hc
    cases hc
    exact ⟨[], by simp⟩
  | cons pd t ih =>
    unfold runCoerce at hc
    split at hc
    · cases hc
    · split at hc
      · split at hc
        · split at hc
          · obtain ⟨e, he⟩ := ih _ _ hc
            exact ⟨_, by rw [he, List.append_assoc]⟩
          · exact ih _ _ hc
        · exact ih _ _ hc
      · exact ih _ _ hc

theorem runCoerce_frame (props : List (String × PropDescr)) (h : Heap)
    (st : Instance) (h' : Heap) (st' : Instance) (q : String)
    (Hq : q ∉ props.map Prod.fst)
    (hc : runCoerce props h st = .ok (h', st')) :
    alookup st'.data q = alookup st.data q := by
  induction props generalizing h st with
  | nil =>
    unfold runCoerce at hc
    cases hc
    rfl
  | cons pd t ih =>
    simp only [List.map_cons, List.mem_cons, not_or] at Hq
    have hq : q ≠ pd.1 := Hq.1
    unfold runCoerce at hc
    split at hc
    · cases hc
    · split at hc
      · split at hc
        · split at hc
          · have hrec := ih _ _ Hq.2 hc
            rw [hrec]
            rw [show ({ coerceParse st pd.1 with
                data := setA (coerceParse st pd.1).data pd.1 (.ref h.length) } :
                Instance).data = setA (coerceParse st pd.1).data pd.1 (.ref h.length) from rfl]
            rw [alookup_setA_ne _ pd.1 q _ hq]
            exact coerceParse_frame st pd.1 q hq
          · exact (ih _ _ Hq.2 hc).trans (coerceParse_frame st pd.1 q hq)
        · exact (ih _ _ Hq.2 hc).trans (coerceParse_frame st pd.1 q hq)
      · exact ih _ _ Hq.2 hc

/-- The coercion pass leaves base-primitive-typed properties untouched. -/
theorem runCoerce_base_at (props : List (String × PropDescr)) (h : Heap)
    (st : Instance) (h' : Heap) (st' : Instance) (p : String) (d : PropDescr)
    (hnd : (props.map Prod.fst).Nodup) (hmem : (p, d) ∈ props)
    (hbase : isBasePD d = true)
    (hc : runCoerce props h st = .ok (h', st')) :
    alookup st'.data p = alookup st.data p := by
  induction props generalizing h st with
  | nil => simp at hmem
  | cons pd t ih =>
    simp only [List.map_cons, List.nodup_cons] at hnd
    rcases List.mem_cons.mp hmem with heq | htail
    · cases heq
      have hp_not : p ∉ t.map Prod.fst := hnd.1
      obtain ⟨ty, hty, hb⟩ : ∃ ty, d.type = some ty ∧ isBaseType ty = true := by
        unfold isBasePD at hbase
        cases hdt : d.type with
        | none => rw [hdt] at hbase; simp at hbase
        | some ty => rw [hdt] at hbase; exact ⟨ty, rfl, hbase⟩
      unfold runCoerce at hc
      rw [hty] at hc
      simp only [hb] at hc
      exact runCoerce_frame t h st h' st' p hp_not hc
    · have hk : pd.1 ≠ p := by
        intro hcontra
        exact hnd.1 (List.mem_map.mpr ⟨(p, d), htail, hcontra.symm⟩)
      have hq : p ≠ pd.1 := Ne.symm hk
      unfold runCoerce at hc
      split at hc
      · cases hc
      · split at hc
        · split at hc
          · split at hc
            · have hrec := ih _ _ hnd.2 htail hc
              rw [hrec]
              rw [show ({ coerceParse st pd.1 with
                  data := setA (coerceParse st pd.1).data pd.1 (.ref h.length) } :
                  Instance).data = setA (coerceParse st pd.1).data pd.1 (.ref h.length) from rfl]
              rw [alookup_setA_ne _ pd.1 p _ hq]
              exact coerceParse_frame st pd.1 p hq
            · exact (ih _ _ hnd.2 htail hc).trans (coerceParse_frame st pd.1 p hq)
          · exact (ih _ _ hnd.2 htail hc).trans (coerceParse_frame st pd.1 p hq)
        · exact ih _ _ hnd.2 htail hc

/-- When every registered property is base-primitive-typed, the coercion
pass is the identity. -/
theorem runCoerce_all_base (props : List (String × PropDescr)) (h : Heap)
    (st : Instance) (hb : ∀ pd ∈ props, isBasePD pd.2 = true) :
    runCoerce props h st = .ok (h, st) := by
  induction props with
  | nil => rfl
  | cons pd t ih =>
    have hbase := hb pd (List.mem_cons_self pd t)
    obtain ⟨ty, hty, hbt⟩ : ∃ ty, pd.2.type = some ty ∧ isBaseType ty = true := by
      unfold isBasePD at hbase
      cases hdt : pd.2.type with
      | none => rw [hdt] at hbase; simp at hbase
      | some ty => rw [hdt] at hbase; exact ⟨ty, rfl, hbase⟩
    unfold runCoerce
    rw [hty]
    simp only [hbt]
    exact ih (fun pd' hpd' => hb pd' (List.mem_cons_of_mem pd hpd'))

/-- After the coercion pass, every array-tagged registered property holds an
Ordered List Container instance. -/
theorem runCoerce_array_at (props : List (String × PropDescr)) (h : Heap)
    (st : Instance) (h' : Heap) (st' : Instance) (p : String) (d : PropDescr)
    (ty : TypeTag)
    (hnd : (props.map Prod.fst).Nodup) (hmem : (p, d) ∈ props)
    (hty : d.type = some ty) (ha : isArrayTag ty = true)
    (hc : runCoerce props h st = .ok (h', st')) :
    isListV h' (lookupD st'.data p) = true := by
  induction props generalizing h st with
  | nil => simp at hmem
  | cons pd t ih =>
    simp only [List.map_cons, List.nodup_cons] at hnd
    rcases List.mem_cons.mp hmem with heq | htail
    · cases heq
      have hp_not : p ∉ t.map Prod.fst := hnd.1
      unfold runCoerce at hc
      rw [hty] at hc
      simp only [isBaseType_of_array ty ha, Bool.not_false, if_true, ha] at hc
      split at hc
      · -- wrap branch: a fresh container was allocated at address `h.length`
        have hfr := runCoerce_frame t _ _ h' st' p hp_not hc
        obtain ⟨e, he⟩ := runCoerce_heap_ext t _ _ h' st' hc
        have hval : alookup st'.data p = some (.ref h.length) := by
          rw [hfr]
          rw [show ({ coerceParse st p with
              data := setA (coerceParse st p).data p (.ref h.length) } :
              Instance).data = setA (coerceParse st p).data p (.ref h.length) from rfl]
          exact alookup_setA_self _ p _
        have hlook : lookupD st'.data p = .ref h.length := by
          unfold lookupD
          rw [hval]
          rfl
        rw [hlook, he]
        simp only [isListV]
        rw [List.append_assoc, List.get?_append_right (le_refl h.length)]
        simp
      · -- already a container
        next hlist =>
        have hl : isListV h (lookupD (coerceParse st p).data p) = true := by
          revert hlist
          cases isListV h (lookupD (coerceParse st p).data p) <;> simp
        have hfr := runCoerce_frame t _ _ h' st' p hp_not hc
        obtain ⟨e, he⟩ := runCoerce_heap_ext t _ _ h' st' hc
        rw [lookupD_congr _ _ p hfr, he]
        exact isListV_append h e _ hl
    · have hk : pd.1 ≠ p := by
        intro hcontra
        exact hnd.1 (List.mem_map.mpr ⟨(p, d), htail, hcontra.symm⟩)
      unfold runCoerce at hc
      split at hc
      · cases hc
      · split at hc
        · split at hc
          · split at hc
            · exact ih _ _ hnd.2 htail hc
            · exact ih _ _ hnd.2 htail hc
          · exact ih _ _ hnd.2 htail hc
        · exact ih _ _ hnd.2 htail hc

/-- When an array-tagged registered property enters the coercion pass
holding a reference to a plain (non-container) array in the current heap,
it leaves the pass holding a reference to a freshly allocated container —
an address at or beyond the old heap end. -/
theorem runCoerce_wrap_fresh (props : List (String × PropDescr)) (h : Heap)
    (st : Instance) (h' : Heap) (st' : Instance) (p : String) (d : PropDescr)
    (ty : TypeTag) (a : Nat) (es : List Value)
    (hnd : (props.map Prod.fst).Nodup) (hmem : (p, d) ∈ props)
    (hty : d.type = some ty) (ha : isArrayTag ty = true)
    (hval : alookup st.data p = some (.ref a))
    (harr : h.get? a = some (.arr es))
    (hc : runCoerce props h st = .ok (h', st')) :
    ∃ a', alookup st'.data p = some (.ref a') ∧ h.length ≤ a' := by
  induction props generalizing h st with
  | nil => simp at hmem
  | cons pd t ih =>
    simp only [List.map_cons, List.nodup_cons] at hnd
    rcases List.mem_cons.mp hmem with heq | htail
    · cases heq
      have hp_not : p ∉ t.map Prod.fst := hnd.1
      have hlookup : lookupD st.data p = .ref a := by
        unfold lookupD
        rw [hval]
        rfl
      have hcp : coerceParse st p = st :=
        coerceParse_of_obj st p (by rw [hlookup]; rfl)
      unfold runCoerce at hc
      rw [hty] at hc
      simp only [isBaseType_of_array ty ha, Bool.not_false, if_true, ha, hcp] at hc
      have hnotlist : isListV h (lookupD st.data p) = false := by
        rw [hlookup]
        simp only [isListV, harr]
      rw [hnotlist] at hc
      simp only [Bool.not_false, if_true] at hc
      have hfr := runCoerce_frame t _ _ h' st' p hp_not hc
      refine ⟨h.length, ?_, le_refl _⟩
      rw [hfr]
      rw [show ({ st with data := setA st.data p (.ref h.length) } :
          Instance).data = setA st.data p (.ref h.length) from rfl]
      exact alookup_setA_self _ p _
    · have hk : pd.1 ≠ p := by
        intro hcontra
        exact hnd.1 (List.mem_map.mpr ⟨(p, d), htail, hcontra.symm⟩)
      have hq : p ≠ pd.1 := Ne.symm hk
      have hacp : alookup (coerceParse st pd.1).data p = some (.ref a) :=
        (coerceParse_frame st pd.1 p hq).trans hval
      have halt : a < h.length := by
        cases hlt : decide (a < h.length) with
        | true => exact of_decide_eq_true hlt
        | false =>
          exfalso
          have : h.get? a = none := List.get?_eq_none.mpr (le_of_not_lt (of_decide_eq_false hlt))
          rw [this] at harr
          cases harr
      unfold runCoerce at hc
      split at hc
      · cases hc
      · split at hc
        · split at hc
          · split at hc
            · have harr2 : ∀ o : HObj, (h ++ [o]).get? a = some (.arr es) := by
                intro o
                rw [List.get?_append halt]
                exact harr
              have hval2 : alookup ({ coerceParse st pd.1 with
                  data := setA (coerceParse st pd.1).data pd.1 (.ref h.length) } :
                  Instance).data p = some (.ref a) := by
                rw [show ({ coerceParse st pd.1 with
                    data := setA (coerceParse st pd.1).data pd.1 (.ref h.length) } :
                    Instance).data = setA (coerceParse st pd.1).data pd.1 (.ref h.length) from rfl]
                rw [alookup_setA_ne _ pd.1 p _ hq]
                exact hacp
              obtain ⟨a', ha1, ha2⟩ := ih _ _ hnd.2 htail hval2 (harr2 _) hc
              refine ⟨a', ha1, le_trans ?_ ha2⟩
              simp
            · obtain ⟨a', ha1, ha2⟩ := ih _ _ hnd.2 htail hacp harr hc
              exact ⟨a', ha1, ha2⟩
          · obtain ⟨a', ha1, ha2⟩ := ih _ _ hnd.2 htail hacp harr hc
            exact ⟨a', ha1, ha2⟩
        · obtain ⟨a', ha1, ha2⟩ := ih _ _ hnd.2 htail hval harr hc
          exact ⟨a', ha1, ha2⟩

/-! ## Value lemmas about the partition loop -/

/-- Reading a field never fails on non-nullish values. -/
theorem getField_ok (h : Heap) (v : Value) (k : String)
    (h1 : v ≠ .null) (h2 : v ≠ .undef) : ∃ w, getField h v k = .ok w := by
  cases v with
  | undef => exact absurd rfl h2
  | null => exact absurd rfl h1
  | ref a =>
    cases hg : h.get? a with
    | none =>
      refine ⟨.undef, ?_⟩
      simp only [getField, hg]
    | some o =>
      cases o with
      | plain fields =>
        refine ⟨lookupD fields k, ?_⟩
        simp only [getField, hg]
      | arr elems =>
        refine ⟨.undef, ?_⟩
        simp only [getField, hg]
      | list w ty =>
        refine ⟨.undef, ?_⟩
        simp only [getField, hg]
  | bool b => exact ⟨.undef, rfl⟩
  | num n => exact ⟨.undef, rfl⟩
  | str s => exact ⟨.undef, rfl⟩
  | func id => exact ⟨.undef, rfl⟩

/-- The partition loop leaves both stores untouched at a key that no input
entry stores to (directly, or through a relation's foreign key). -/
theorem runStep1_frame (defn : ModelDef) (s : Strict) (h : Heap)
    (raw : List (String × Value)) (st st' : Instance) (q : String)
    (Hq : ∀ kv ∈ raw, kv.1 ≠ q ∧
      (∀ r, alookup defn.relations kv.1 = some r →
        (hasKey defn.properties kv.1 && !(isFunc kv.2)) = false → r.keyFrom ≠ q))
    (hrun : runStep1 defn s h raw st = .ok st') :
    alookup st'.data q = alookup st.data q ∧
    alookup st'.dataWas q = alookup st.dataWas q := by
  induction raw generalizing st with
  | nil =>
    cases hrun
    exact ⟨rfl, rfl⟩
  | cons kv t ih =>
    have hq := Hq kv (List.mem_cons_self kv t)
    have Hq' : ∀ kv' ∈ t, kv'.1 ≠ q ∧
        (∀ r, alookup defn.relations kv'.1 = some r →
          (hasKey defn.properties kv'.1 && !(isFunc kv'.2)) = false → r.keyFrom ≠ q) :=
      fun kv' hkv' => Hq kv' (List.mem_cons_of_mem kv hkv')
    unfold runStep1 at hrun
    split at hrun
    · next st₂ hstep =>
      have hne : ∀ (l : List (String × Value)) (w : Value),
          alookup (setA l kv.1 w) q = alookup l q :=
        fun l w => alookup_setA_ne l kv.1 q w (Ne.symm hq.1)
      unfold initStep1 at hstep
      split at hstep
      · cases hstep
        have hrec := ih _ Hq' hrun
        exact ⟨hrec.1.trans (hne _ _), hrec.2.trans (hne _ _)⟩
      · next hcond =>
        split at hstep
        · next r hrel =>
          split at hstep
          · cases hstep
          · cases hstep
            have hrec := ih _ Hq' hrun
            have hkf : r.keyFrom ≠ q := hq.2 r hrel (by
              revert hcond
              cases hasKey defn.properties kv.1 && !(isFunc kv.2) <;> simp)
            refine ⟨hrec.1.trans ?_, hrec.2.trans (hne _ _)⟩
            exact alookup_setA_ne _ r.keyFrom q _ (Ne.symm hkf)
        · split at hstep
          · cases hstep
            have hrec := ih _ Hq' hrun
            exact ⟨hrec.1.trans (hne _ _), hrec.2.trans (hne _ _)⟩
          · split at hstep
            · cases hstep
            · cases hstep
              exact ih _ Hq' hrun
    · cases hrun

/-- After the partition loop, a key stored by the declared-property branch
or the permissive free-form branch holds its raw value in both stores. -/
theorem runStep1_store_at (defn : ModelDef) (s : Strict) (h : Heap)
    (raw : List (String × Value)) (st st' : Instance) (k : String) (v : Value)
    (hnd : (raw.map Prod.fst).Nodup)
    (hmem : (k, v) ∈ raw)
    (hstore : (hasKey defn.properties k && !(isFunc v)) = true ∨
      ((hasKey defn.properties k && !(isFunc v)) = false ∧
        alookup defn.relations k = none ∧ s = .strictFalse))
    (hnorel : ∀ kv ∈ raw, ∀ r, alookup defn.relations kv.1 = some r →
      (hasKey defn.properties kv.1 && !(isFunc kv.2)) = false → r.keyFrom ≠ k)
    (hrun : runStep1 defn s h raw st = .ok st') :
    alookup st'.data k = some v ∧ alookup st'.dataWas k = some v := by
  induction raw generalizing st with
  | nil => simp at hmem
  | cons kv t ih =>
    simp only [List.map_cons, List.nodup_cons] at hnd
    rcases List.mem_cons.mp hmem with heq | htail
    · cases heq
      have hk_not : ∀ kv' ∈ t, kv'.1 ≠ k := by
        intro kv' hkv' hcontra
        exact hnd.1 (List.mem_map.mpr ⟨kv', hkv', hcontra⟩)
      have Hq : ∀ kv' ∈ t, kv'.1 ≠ k ∧
          (∀ r, alookup defn.relations kv'.1 = some r →
            (hasKey defn.properties kv'.1 && !(isFunc kv'.2)) = false → r.keyFrom ≠ k) :=
        fun kv' hkv' => ⟨hk_not kv' hkv',
          fun r hr hcond => hnorel kv' (List.mem_cons_of_mem _ hkv') r hr hcond⟩
      unfold runStep1 at hrun
      split at hrun
      · next st₂ hstep =>
        have hfr := runStep1_frame defn s h t st₂ st' k Hq hrun
        unfold initStep1 at hstep
        rcases hstore with hb1 | ⟨hb0, hrel, hsf⟩
        · rw [if_pos hb1] at hstep
          cases hstep
          refine ⟨hfr.1.trans ?_, hfr.2.trans ?_⟩
          · exact alookup_setA_self st.data k v
          · exact alookup_setA_self st.dataWas k v
        · rw [if_neg (by simp [hb0])] at hstep
          rw [show alookup defn.relations (k, v).1 = none from hrel] at hstep
          rw [if_pos hsf] at hstep
          cases hstep
          refine ⟨hfr.1.trans ?_, hfr.2.trans ?_⟩
          · exact alookup_setA_self st.data k v
          · exact alookup_setA_self st.dataWas k v
      · cases hrun
    · unfold runStep1 at hrun
      split at hrun
      · next st₂ hstep =>
        exact ih st₂ hnd.2 htail
          (fun kv' hkv' => hnorel kv' (List.mem_cons_of_mem _ hkv')) hrun
      · cases hrun

/-- One partition step can only fail by rejecting its own key as unknown,
provided a relation-classified value is not nullish. -/
theorem initStep1_error_shape (defn : ModelDef) (s : Strict) (h : Heap)
    (st : Instance) (kv : String × Value) (e : JsError)
    (HnoNull : (hasKey defn.properties kv.1 && !(isFunc kv.2)) = false →
      ∀ r, alookup defn.relations kv.1 = some r → kv.2 ≠ .null ∧ kv.2 ≠ .undef)
    (hstep : initStep1 defn s h st kv = .error e) :
    e = .unknownProperty kv.1 ∧ s = .strictThrow ∧
    (hasKey defn.properties kv.1 && !(isFunc kv.2)) = false ∧
    alookup defn.relations kv.1 = none := by
  unfold initStep1 at hstep
  split at hstep
  · cases hstep
  · next hcond =>
    have hcond' : (hasKey defn.properties kv.1 && !(isFunc kv.2)) = false := by
      revert hcond
      cases hasKey defn.properties kv.1 && !(isFunc kv.2) <;> simp
    split at hstep
    · next r hrel =>
      have hnn := HnoNull hcond' r hrel
      obtain ⟨w, hw⟩ := getField_ok h kv.2 r.keyTo hnn.1 hnn.2
      rw [hw] at hstep
      cases hstep
    · next hrel =>
      split at hstep
      · cases hstep
      · split at hstep
        · next hthrow =>
          cases hstep
          exact ⟨rfl, hthrow, hcond', hrel⟩
        · cases hstep

/-- When its key reaches the unknown branch under `'throw'`, one partition
step fails with exactly the unknown-property rejection. -/
theorem initStep1_throws (defn : ModelDef) (s : Strict) (h : Heap)
    (st : Instance) (kv : String × Value)
    (hcond : (hasKey defn.properties kv.1 && !(isFunc kv.2)) = false)
    (hrel : alookup defn.relations kv.1 = none)
    (hs : s = .strictThrow) :
    initStep1 defn s h st kv = .error (.unknownProperty kv.1) := by
  unfold initStep1
  rw [if_neg (by simp [hcond])]
  rw [hrel]
  rw [if_neg (by rw [hs]; intro hcontra; cases hcontra)]
  rw [if_pos hs]

/-- Under a no-nullish-relation-value input, the partition loop rejects with
`UnknownPropertyError` exactly when the strict mode is `'throw'` and some
input entry reaches the unknown branch: neither a non-function-valued
registered property nor a relation name. -/
theorem runStep1_unknown_iff (defn : ModelDef) (s : Strict) (h : Heap)
    (raw : List (String × Value)) (st : Instance)
    (HnoNull : ∀ kv ∈ raw, (hasKey defn.properties kv.1 && !(isFunc kv.2)) = false →
      ∀ r, alookup defn.relations kv.1 = some r → kv.2 ≠ .null ∧ kv.2 ≠ .undef) :
    (∃ k, runStep1 defn s h raw st = .error (.unknownProperty k)) ↔
    (s = .strictThrow ∧ ∃ kv ∈ raw,
      (hasKey defn.properties kv.1 && !(isFunc kv.2)) = false ∧
      alookup defn.relations kv.1 = none) := by
  induction raw generalizing st with
  | nil =>
    constructor
    · rintro ⟨k, hk⟩
      cases hk
    · rintro ⟨-, kv, hkv, -⟩
      simp at hkv
  | cons kv t ih =>
    have HnoNull' : ∀ kv' ∈ t, (hasKey defn.properties kv'.1 && !(isFunc kv'.2)) = false →
        ∀ r, alookup defn.relations kv'.1 = some r → kv'.2 ≠ .null ∧ kv'.2 ≠ .undef :=
      fun kv' hkv' => HnoNull kv' (List.mem_cons_of_mem kv hkv')
    constructor
    · rintro ⟨k, hk⟩
      unfold runStep1 at hk
      split at hk
      · next st₂ hstep =>
        obtain ⟨hs, kv', hkv', hcond, hrel⟩ := (ih _ HnoNull').mp ⟨k, hk⟩
        exact ⟨hs, kv', List.mem_cons_of_mem kv hkv', hcond, hrel⟩
      · next e₂ hstep =>
        cases hk
        obtain ⟨-, hs, hcond, hrel⟩ := initStep1_error_shape defn s h st kv _
          (HnoNull kv (List.mem_cons_self kv t)) hstep
        exact ⟨hs, kv, List.mem_cons_self kv t, hcond, hrel⟩
    · rintro ⟨hs, kv', hkv', hcond, hrel⟩
      rcases List.mem_cons.mp hkv' with heq | htail
      · refine ⟨kv.1, ?_⟩
        unfold runStep1
        rw [heq] at hcond hrel
        rw [initStep1_throws defn s h st kv hcond hrel hs]
      · cases hstep : initStep1 defn s h st kv with
        | ok st₂ =>
          obtain ⟨k, hk⟩ := (ih st₂ HnoNull').mpr ⟨hs, kv', htail, hcond, hrel⟩
          refine ⟨k, ?_⟩
          unfold runStep1
          rw [hstep]
          exact hk
        | error e =>
          obtain ⟨he, -, -, -⟩ := initStep1_error_shape defn s h st kv e
            (HnoNull kv (List.mem_cons_self kv t)) hstep
          refine ⟨kv.1, ?_⟩
          unfold runStep1
          rw [hstep, he]

/-- The coercion pass can only fail with a TypeError (a registered property
with no declared type). -/
theorem runCoerce_error_shape (props : List (String × PropDescr)) (h : Heap)
    (st : Instance) (e : JsError)
    (hc : runCoerce props h st = .error e) : ∃ m, e = .typeError m := by
  induction props generalizing h st with
  | nil => cases hc
  | cons pd t ih =>
    unfold runCoerce at hc
    split at hc
    · cases hc
      exact ⟨_, rfl⟩
    · split at hc
      · split at hc
        · split at hc
          · exact ih _ _ hc
          · exact ih _ _ hc
        · exact ih _ _ hc
      · exact ih _ _ hc

/-! ## Serializer lemmas -/

/-- Pass A emits exactly the registered property names (on top of what was
already emitted). -/
theorem toObjectProps_keys (defn : ModelDef) (h : Heap) (st : Instance)
    (props : List (String × PropDescr)) (out : List (String × Value)) (q : String) :
    hasKey (toObjectProps defn h st props out) q = true ↔
    (hasKey out q = true ∨ q ∈ props.map Prod.fst) := by
  induction props generalizing out with
  | nil => simp [toObjectProps]
  | cons pd t ih =>
    unfold toObjectProps
    constructor
    · intro hk
      rcases (ih _).mp hk with hout | hmem
      · split at hout
        · rcases (hasKey_setA_iff out pd.1 q _).mp hout with heq | hold
          · exact Or.inr (by simp [heq])
          · exact Or.inl hold
        · split at hout
          · rcases (hasKey_setA_iff out pd.1 q _).mp hout with heq | hold
            · exact Or.inr (by simp [heq])
            · exact Or.inl hold
          · rcases (hasKey_setA_iff out pd.1 q _).mp hout with heq | hold
            · exact Or.inr (by simp [heq])
            · exact Or.inl hold
      · exact Or.inr (by simp [hmem])
    · intro hk
      have hsplit : hasKey out q = true ∨ q = pd.1 ∨ q ∈ t.map Prod.fst := by
        rcases hk with hout | hmem
        · exact Or.inl hout
        · simp only [List.map_cons, List.mem_cons] at hmem
          exact Or.inr hmem
      apply (ih _).mpr
      rcases hsplit with hout | heq | hmem
      · refine Or.inl ?_
        split
        · exact (hasKey_setA_iff out pd.1 q _).mpr (Or.inr hout)
        · split
          · exact (hasKey_setA_iff out pd.1 q _).mpr (Or.inr hout)
          · exact (hasKey_setA_iff out pd.1 q _).mpr (Or.inr hout)
      · refine Or.inl ?_
        split
        · exact (hasKey_setA_iff out pd.1 q _).mpr (Or.inl heq)
        · split
          · exact (hasKey_setA_iff out pd.1 q _).mpr (Or.inl heq)
          · exact (hasKey_setA_iff out pd.1 q _).mpr (Or.inl heq)
      · exact Or.inr hmem

/-- Pass A over all-primitive registered properties appends their current
values in registry order. -/
theorem toObjectProps_prim (defn : ModelDef) (h : Heap) (st : Instance)
    (props : List (String × PropDescr)) (out : List (String × Value))
    (hnd : (props.map Prod.fst).Nodup)
    (hvals : ∀ pd ∈ props, hasKey st.data pd.1 = true ∧
      isPrim (getProp defn st pd.1) = true)
    (hdisj : ∀ pd ∈ props, hasKey out pd.1 = false) :
    toObjectProps defn h st props out =
      out ++ props.map (fun pd => (pd.1, getProp defn st pd.1)) := by
  induction props generalizing out with
  | nil => simp [toObjectProps]
  | cons pd t ih =>
    simp only [List.map_cons, List.nodup_cons] at hnd
    have hv := hvals pd (List.mem_cons_self pd t)
    have hd := hdisj pd (List.mem_cons_self pd t)
    unfold toObjectProps
    have hnl : isListV h (getProp defn st pd.1) = false :=
      isListV_of_prim h _ hv.2
    rw [hnl]
    simp only [Bool.false_eq_true, if_false, hv.1, if_true]
    rw [emitVal_of_prim h _ hv.2]
    have hset : setA out pd.1 (getProp defn st pd.1)
        = out ++ [(pd.1, getProp defn st pd.1)] := by
      apply setA_eq_append
      cases hl : alookup out pd.1 with
      | none => rfl
      | some w =>
        exfalso
        have : hasKey out pd.1 = true := by
          unfold hasKey
          rw [hl]
          rfl
        rw [this] at hd
        cases hd
    rw [hset]
    have hd' : ∀ pd' ∈ t, hasKey (out ++ [(pd.1, getProp defn st pd.1)]) pd'.1 = false := by
      intro pd' hpd'
      cases hkk : hasKey (out ++ [(pd.1, getProp defn st pd.1)]) pd'.1 with
      | false => rfl
      | true =>
        exfalso
        rw [← hset] at hkk
        rcases (hasKey_setA_iff out pd.1 pd'.1 _).mp hkk with heq | hold
        · exact hnd.1 (heq ▸ List.mem_map.mpr ⟨pd', hpd', rfl⟩)
        · have hcontra := hdisj pd' (List.mem_cons_of_mem pd hpd')
          rw [hold] at hcontra
          cases hcontra
    rw [ih _ hnd.2 (fun pd' hpd' => hvals pd' (List.mem_cons_of_mem pd hpd')) hd']
    simp

/-- Pass C leaves already-emitted keys untouched and preserves every
emitted entry. -/
theorem toObjectData_pres (defn : ModelDef) (h : Heap) (st : Instance)
    (dl out : List (String × Value)) (k : String)
    (hkey : hasKey out k = true) :
    alookup (toObjectData defn h st dl out) k = alookup out k := by
  induction dl generalizing out with
  | nil => rfl
  | cons kv t ih =>
    unfold toObjectData
    split
    · next hnk =>
      have hne : kv.1 ≠ k := by
        intro hcontra
        rw [hcontra] at hnk
        rw [hkey] at hnk
        simp at hnk
      have hkey' : hasKey (setA out kv.1 (emitVal h
          (if hasKey st.own kv.1 then getProp defn st kv.1 else lookupD st.data kv.1))) k = true :=
        (hasKey_setA_iff _ _ _ _).mpr (Or.inr hkey)
      rw [ih _ hkey']
      exact alookup_setA_ne out kv.1 k _ (Ne.symm hne)
    · exact ih out hkey

/-- Pass C is the identity when every `__data` key was already emitted. -/
theorem toObjectData_all (defn : ModelDef) (h : Heap) (st : Instance)
    (dl out : List (String × Value))
    (hall : ∀ kv ∈ dl, hasKey out kv.1 = true) :
    toObjectData defn h st dl out = out := by
  induction dl with
  | nil => rfl
  | cons kv t ih =>
    unfold toObjectData
    rw [if_neg (by rw [hall kv (List.mem_cons_self kv t)]; simp)]
    exact ih (fun kv' hkv' => hall kv' (List.mem_cons_of_mem kv hkv'))

/-- Pass B preserves every emitted entry. -/
theorem toObjectOwn_pres (defn : ModelDef) (h : Heap) (st : Instance)
    (ol out : List (String × Value)) (k : String)
    (hkey : hasKey out k = true) :
    alookup (toObjectOwn defn h st ol out) k = alookup out k := by
  induction ol generalizing out with
  | nil => rfl
  | cons kv t ih =>
    unfold toObjectOwn
    split
    · next hnk =>
      have hne : kv.1 ≠ k := by
        intro hcontra
        rw [hcontra] at hnk
        rw [hkey] at hnk
        simp at hnk
      have hkey' : hasKey (setA out kv.1 (emitVal h (getProp defn st kv.1))) k = true :=
        (hasKey_setA_iff _ _ _ _).mpr (Or.inr hkey)
      rw [ih _ hkey']
      exact alookup_setA_ne out kv.1 k _ (Ne.symm hne)
    · exact ih out hkey

/-! ## `fromObject` lemmas -/

theorem fromObject_misc (defn : ModelDef) (st : Instance)
    (obj : List (String × Value)) :
    (fromObject defn st obj).dataWas = st.dataWas ∧
    (fromObject defn st obj).cachedRelations = st.cachedRelations ∧
    (fromObject defn st obj).strict = st.strict := by
  induction obj generalizing st with
  | nil => exact ⟨rfl, rfl, rfl⟩
  | cons kv t ih =>
    unfold fromObject
    have hrec := ih (setProp defn st kv.1 kv.2)
    exact ⟨hrec.1.trans (setProp_dataWas ..), hrec.2.1.trans (setProp_cached ..),
      hrec.2.2.trans (setProp_strict ..)⟩

theorem fromObject_own_reg (defn : ModelDef) (st : Instance)
    (obj : List (String × Value))
    (hall : ∀ kv ∈ obj, hasKey defn.properties kv.1 = true) :
    (fromObject defn st obj).own = st.own := by
  induction obj generalizing st with
  | nil => rfl
  | cons kv t ih =>
    unfold fromObject
    rw [setProp_reg defn st kv.1 kv.2 (hall kv (List.mem_cons_self kv t))]
    exact ih _ (fun kv' hkv' => hall kv' (List.mem_cons_of_mem kv hkv'))

theorem fromObject_frame (defn : ModelDef) (st : Instance)
    (obj : List (String × Value)) (q : String)
    (Hq : ∀ kv ∈ obj, kv.1 ≠ q) :
    alookup (fromObject defn st obj).data q = alookup st.data q := by
  induction obj generalizing st with
  | nil => rfl
  | cons kv t ih =>
    have hq := Hq kv (List.mem_cons_self kv t)
    unfold fromObject
    rw [ih _ (fun kv' hkv' => Hq kv' (List.mem_cons_of_mem kv hkv'))]
    unfold setProp
    split
    · exact alookup_setA_ne st.data kv.1 q _ (Ne.symm hq)
    · rfl

theorem fromObject_data_at (defn : ModelDef) (st : Instance)
    (obj : List (String × Value)) (k : String) (w : Value)
    (hnd : (obj.map Prod.fst).Nodup) (hmem : (k, w) ∈ obj)
    (hreg : hasKey defn.properties k = true) :
    alookup (fromObject defn st obj).data k = some w := by
  induction obj generalizing st with
  | nil => simp at hmem
  | cons kv t ih =>
    simp only [List.map_cons, List.nodup_cons] at hnd
    rcases List.mem_cons.mp hmem with heq | htail
    · cases heq
      unfold fromObject
      rw [fromObject_frame defn _ t k (by
        intro kv' hkv' hcontra
        exact hnd.1 (List.mem_map.mpr ⟨kv', hkv', hcontra⟩))]
      rw [setProp_reg defn st k w hreg]
      exact alookup_setA_self st.data k w
    · unfold fromObject
      exact ih _ hnd.2 htail

theorem fromObject_keys (defn : ModelDef) (st : Instance)
    (obj : List (String × Value)) (q : String)
    (h : hasKey (fromObject defn st obj).data q = true) :
    hasKey st.data q = true ∨ q ∈ obj.map Prod.fst := by
  induction obj generalizing st with
  | nil => exact Or.inl h
  | cons kv t ih =>
    unfold fromObject at h
    rcases ih _ h with hk | hmem
    · unfold setProp at hk
      split at hk
      · rcases (hasKey_setA_iff st.data kv.1 q kv.2).mp hk with heq | hold
        · exact Or.inr (by simp [heq])
        · exact Or.inl hold
      · exact Or.inl hk
    · exact Or.inr (by simp [hmem])

/-! ## Claim C9: `getPropertyType` -/

/-- C9 counterexample schema: a property declared with the array-literal
type `[String]` (the coercion pass explicitly anticipates such types via
`Array.isArray(type)`), and a property with no type. -/
def c9defn : ModelDef :=
  { properties := [("tags", ⟨some (.arrayOf (.named "String")), .noDflt⟩),
      ("bad", ⟨none, .noDflt⟩)],
    settingsStrict := .strictOther, relations := [] }

/-- C9 (counterexample): for a property declared with an array-literal type,
`getPropertyType` returns `undefined` (JS `[T].name`), which is neither a
type tag name (a string) nor `null`, and no error is raised — contradicting
the claim that a property that exists and declares a type yields its type
tag name. -/
theorem C9_counterexample :
    getPropertyType c9defn "tags" = .ok .undef ∧
    (Except.ok Value.undef : Except JsError Value) ≠ .ok .null ∧
    (∀ s : String, (Except.ok Value.undef : Except JsError Value) ≠ .ok (.str s)) := by
  refine ⟨rfl, by decide, ?_⟩
  intro s hcontra
  cases hcontra

/-- C9 (amended): `getPropertyType(name)` returns `null` when the named
property is not part of the definition; fails with `MissingTypeError`
exactly when the property exists but declares no type; returns the type
tag's name when the declared type is a named constructor; and returns
`undefined` (not a name, not `null`, no error) when the declared type is an
array literal, which exposes no name. -/
theorem C9_amended_thm (defn : ModelDef) (propName : String) :
    (alookup defn.properties propName = none →
      getPropertyType defn propName = .ok .null) ∧
    (∀ d, alookup defn.properties propName = some d → d.type = none →
      getPropertyType defn propName = .error (.missingType propName)) ∧
    (∀ d n, alookup defn.properties propName = some d → d.type = some (.named n) →
      getPropertyType defn propName = .ok (.str n)) ∧
    (∀ d e, alookup defn.properties propName = some d → d.type = some (.arrayOf e) →
      getPropertyType defn propName = .ok .undef) ∧
    (∀ err, getPropertyType defn propName = .error err →
      ∃ d, alookup defn.properties propName = some d ∧ d.type = none ∧
        err = .missingType propName) := by
  refine ⟨?_, ?_, ?_, ?_, ?_⟩
  · intro hnone
    simp only [getPropertyType, hnone]
  · intro d hd htype
    simp only [getPropertyType, hd, htype]
  · intro d n hd htype
    simp only [getPropertyType, hd, htype, tagName]
  · intro d e hd htype
    simp only [getPropertyType, hd, htype, tagName]
  · intro err herr
    unfold getPropertyType at herr
    split at herr
    · cases herr
    · next d hd =>
      split at herr
      · cases herr
        exact ⟨d, hd, by assumption, rfl⟩
      · cases herr

/-- C9 witness: the amended theorem applied to the concrete schema. -/
theorem C9_witness :
    getPropertyType c9defn "tags" = .ok .undef ∧
    getPropertyType c9defn "bad" = .error (.missingType "bad") ∧
    getPropertyType c9defn "nope" = .ok .null :=
  ⟨(C9_amended_thm c9defn "tags").2.2.2.1 ⟨some (.arrayOf (.named "String")), .noDflt⟩
      (.named "String") (by decide) rfl,
    (C9_amended_thm c9defn "bad").2.1 ⟨none, .noDflt⟩ (by decide) rfl,
    (C9_amended_thm c9defn "nope").1 (by decide)⟩

/-! ## Claim C6: array-typed properties always hold a container -/

/-- C6 (confirmed): for every array-tagged registered property `p`, after a
successful construction `__data[p]` is an Ordered List Container instance —
whatever the raw input held there. -/
theorem C6_confirmed_thm (defn : ModelDef) (h : Heap) (raw : List (String × Value))
    (opts : Options) (p : String) (d : PropDescr) (ty : TypeTag)
    (h' : Heap) (st' : Instance)
    (hnd : (defn.properties.map Prod.fst).Nodup)
    (hmem : (p, d) ∈ defn.properties)
    (hty : d.type = some ty) (ha : isArrayTag ty = true)
    (hinit : modelNew defn h raw opts = .ok (h', st')) :
    isListV h' (lookupD st'.data p) = true := by
  unfold modelNew at hinit
  unfold initProperties at hinit
  split at hinit
  · cases hinit
  · simp only [initRest] at hinit
    exact runCoerce_array_at defn.properties h _ h' st' p d ty hnd hmem hty ha hinit

/-- C6 witness schema: one array-typed property. -/
def c6defn : ModelDef :=
  { properties := [("tags", ⟨some (.arrayOf (.named "String")), .noDflt⟩)],
    settingsStrict := .strictOther, relations := [] }

/-- C6 witness raw result: constructed with no input at all. -/
def c6res : Except JsError (Heap × Instance) :=
  modelNew c6defn [] [] ⟨none, none⟩

/-- C6 witness: concrete instantiation (property absent from the input). -/
theorem C6_witness :
    isListV (resHeap c6res) (lookupD (resInst c6res).data "tags") = true :=
  C6_confirmed_thm c6defn [] [] ⟨none, none⟩ "tags"
    ⟨some (.arrayOf (.named "String")), .noDflt⟩ (.arrayOf (.named "String"))
    (resHeap c6res) (resInst c6res) (by decide) (by decide) rfl rfl (by decide)

/-! ## Claim C10: wrapped array input is immediately dirty -/

/-- C10 (confirmed): an array-tagged registered property supplied as a plain
(non-container) array reference is dirty immediately after construction: the
baseline re-snapshot runs before the coercion pass, so `__dataWas[p]` keeps
the raw array reference while `__data[p]` holds the freshly allocated
container — two different references. -/
theorem C10_confirmed_thm (defn : ModelDef) (h : Heap) (raw : List (String × Value))
    (opts : Options) (p : String) (d : PropDescr) (ty : TypeTag) (a : Nat)
    (es : List Value) (h' : Heap) (st' : Instance)
    (hnd : (defn.properties.map Prod.fst).Nodup)
    (hndraw : (raw.map Prod.fst).Nodup)
    (hmem : (p, d) ∈ defn.properties)
    (hty : d.type = some ty) (ha : isArrayTag ty = true)
    (hsup : (p, .ref a) ∈ raw)
    (harr : h.get? a = some (.arr es))
    (Hrel : ∀ kr ∈ defn.relations, kr.2.keyFrom ≠ p)
    (hinit : modelNew defn h raw opts = .ok (h', st')) :
    propertyChanged st' p = true := by
  have hreg : hasKey defn.properties p = true := by
    unfold hasKey
    rw [alookup_of_mem_nodup defn.properties p d hmem hnd]
    rfl
  have hnorel : ∀ kv ∈ raw, ∀ r, alookup defn.relations kv.1 = some r →
      (hasKey defn.properties kv.1 && !(isFunc kv.2)) = false → r.keyFrom ≠ p :=
    fun kv _ r hr _ => Hrel (kv.1, r) (mem_of_alookup defn.relations kv.1 r hr)
  unfold modelNew at hinit
  unfold initProperties at hinit
  split at hinit
  · cases hinit
  · next st1 hrun =>
    -- after the partition loop both stores hold the raw array reference
    have h1 := runStep1_store_at defn _ h raw _ st1 p (.ref a) hndraw hsup
      (Or.inl (by rw [hreg]; rfl)) hnorel hrun
    simp only [initRest] at hinit
    -- the setter loop re-stores the same (truthy) reference
    have h2 : alookup (if (Options.mk (some (opts.applySetters.getD true)) opts.strict).applySetters
          = some true then runSetters defn raw st1 else st1).data p = some (.ref a) ∧
        alookup (if (Options.mk (some (opts.applySetters.getD true)) opts.strict).applySetters
          = some true then runSetters defn raw st1 else st1).dataWas p = some (.ref a) := by
      split
      · exact ⟨runSetters_data_at defn raw st1 p (.ref a) h1.1
            (fun kv _ _ => Or.inr rfl),
          (congrArg (fun l => alookup l p) (runSetters_dataWas defn raw st1)).trans h1.2⟩
      · exact h1
    set st2 := (if (Options.mk (some (opts.applySetters.getD true)) opts.strict).applySetters
      = some true then runSetters defn raw st1 else st1) with hst2
    -- the mirror loop touches only own properties
    have h3 : alookup (if initStrict defn (Options.mk (some (opts.applySetters.getD true)) opts.strict)
          = Strict.strictFalse then runMirror defn raw st2 else st2).data p = some (.ref a) ∧
        alookup (if initStrict defn (Options.mk (some (opts.applySetters.getD true)) opts.strict)
          = Strict.strictFalse then runMirror defn raw st2 else st2).dataWas p = some (.ref a) := by
      split
      · exact ⟨(congrArg (fun l => alookup l p) (runMirror_stores defn raw st2).1).trans h2.1,
          (congrArg (fun l => alookup l p) (runMirror_stores defn raw st2).2.1).trans h2.2⟩
      · exact h2
    set st3 := (if initStrict defn (Options.mk (some (opts.applySetters.getD true)) opts.strict)
      = Strict.strictFalse then runMirror defn raw st2 else st2) with hst3
    -- the defaults pass re-snapshots the (non-undefined) reference
    have hlook3 : lookupD st3.data p = .ref a := by
      unfold lookupD
      rw [h3.1]
      rfl
    have hat := runDefaults_at defn.properties st3 p d hnd hmem
    have h4 : alookup (runDefaults defn.properties st3).data p = some (.ref a) ∧
        alookup (runDefaults defn.properties st3).dataWas p = some (.ref a) := by
      have hne : lookupD st3.data p ≠ .undef := by
        rw [hlook3]
        intro hcontra
        cases hcontra
      refine ⟨(hat.2 hne).1.trans h3.1, (hat.2 hne).2.trans ?_⟩
      rw [hlook3]
    -- the coercion pass wraps into a fresh address, leaving the baseline
    obtain ⟨a', ha1, ha2⟩ := runCoerce_wrap_fresh defn.properties h
      (runDefaults defn.properties st3) h' st' p d ty a es hnd hmem hty ha
      h4.1 harr hinit
    have hwas : alookup st'.dataWas p = some (.ref a) := by
      have hmisc := runCoerce_misc defn.properties h _ h' st' hinit
      rw [show alookup st'.dataWas p = alookup (runDefaults defn.properties st3).dataWas p from
        congrArg (fun l => alookup l p) hmisc.1]
      exact h4.2
    have haneq : a' ≠ a := by
      intro hcontra
      subst hcontra
      have halt : a' < h.length := (List.get?_eq_some.mp harr).1
      exact absurd ha2 (not_le_of_lt halt)
    unfold propertyChanged lookupD
    rw [ha1, hwas]
    simp only [Option.getD_some]
    have : (Value.ref a' == Value.ref a) = false := by
      apply beq_eq_false_iff_ne.mpr
      intro hcontra
      cases hcontra
      exact haneq rfl
    rw [this]
    rfl

/-- C10 witness schema: one array-typed property. -/
def c10defn : ModelDef :=
  { properties := [("tags", ⟨some (.arrayOf (.named "String")), .noDflt⟩)],
    settingsStrict := .strictOther, relations := [] }

/-- C10 witness heap: one plain array object at address 0. -/
def c10heap : Heap := [.arr [.num 1, .num 2]]

/-- C10 witness raw result: the property supplied as the plain array. -/
def c10res : Except JsError (Heap × Instance) :=
  modelNew c10defn c10heap [("tags", .ref 0)] ⟨none, none⟩

/-- C10 witness: concrete instantiation. -/
theorem C10_witness : propertyChanged (resInst c10res) "tags" = true :=
  C10_confirmed_thm c10defn c10heap [("tags", .ref 0)] ⟨none, none⟩ "tags"
    ⟨some (.arrayOf (.named "String")), .noDflt⟩ (.arrayOf (.named "String")) 0
    [.num 1, .num 2] (resHeap c10res) (resInst c10res)
    (by decide) (by decide) (by decide) rfl rfl (by decide) (by decide)
    (by decide) (by decide)

/-! ## Claim C1: schema-only serialization under `strict: false` -/

theorem not_mem_keys_of_alookup_none {α : Type} (l : List (String × α)) (k : String)
    (h : alookup l k = none) : k ∉ l.map Prod.fst := by
  induction l with
  | nil => simp
  | cons kv t ih =>
    obtain ⟨k0, v0⟩ := kv
    by_cases hk : k0 = k
    · subst hk
      simp [alookup] at h
    · simp only [alookup, hk, if_false] at h
      simp only [List.map_cons, List.mem_cons, not_or]
      exact ⟨fun hh => hk hh.symm, ih h⟩

theorem isFunc_of_prim (v : Value) (h : isPrim v = true) : isFunc v = false := by
  cases v <;> simp_all [isPrim, isFunc]

/-- C1 counterexample schema: one registered property. -/
def c1defn : ModelDef :=
  { properties := [("name", ⟨some (.named "String"), .noDflt⟩)],
    settingsStrict := .strictOther, relations := [] }

/-- C1 counterexample construction: `strict: false` with `extra: 1`. -/
def c1res : Except JsError (Heap × Instance) :=
  modelNew c1defn [] [("extra", .num 1)] ⟨none, some .strictFalse⟩

/-- C1 (counterexample): on an instance constructed with `strict: false`
and an unregistered key `extra: 1`, `toObject(true)` DOES contain `extra` —
`schemaLess = (strict === false) || !onlySchema` forces schema-less
serialization for a strict-false instance whatever the caller passed —
contradicting the claim that `toObject(true)` omits it. -/
theorem C1_counterexample :
    alookup (toObject c1defn (resHeap c1res) (resInst c1res) (some true)) "extra"
      = some (.num 1) := by decide

/-- C1 (amended): for an instance constructed with `strict: false` whose
raw input supplied one unregistered, non-relation key with a primitive
value, BOTH `toObject(true)` and `toObject(false)` contain that key with
its value: the instance-level strict mode alone already forces schema-less
serialization. -/
theorem C1_amended_thm (defn : ModelDef) (h : Heap) (k : String) (v : Value)
    (opts : Options) (h' : Heap) (st' : Instance)
    (hreg : hasKey defn.properties k = false)
    (hrel : alookup defn.relations k = none)
    (hprim : isPrim v = true)
    (hstrict : opts.strict = some .strictFalse)
    (hinit : modelNew defn h [(k, v)] opts = .ok (h', st')) :
    alookup (toObject defn h' st' (some true)) k = some v ∧
    alookup (toObject defn h' st' (some false)) k = some v := by
  have hregn : alookup defn.properties k = none := by
    unfold hasKey at hreg
    cases hl : alookup defn.properties k with
    | none => rfl
    | some d => rw [hl] at hreg; cases hreg
  have hkeys : k ∉ defn.properties.map Prod.fst :=
    not_mem_keys_of_alookup_none defn.properties k hregn
  have hfun : isFunc v = false := isFunc_of_prim v hprim
  have hs : initStrict defn ⟨some (opts.applySetters.getD true), opts.strict⟩
      = .strictFalse := by
    unfold initStrict
    rw [hstrict]
    rfl
  unfold modelNew at hinit
  unfold initProperties at hinit
  split at hinit
  · cases hinit
  · next st1 hrun =>
    -- the partition loop stores the free-form key in both stores
    have h1 := runStep1_store_at defn _ h [(k, v)] _ st1 k v (by simp) (by simp)
      (Or.inr ⟨by rw [hreg]; rfl, hrel, hs⟩)
      (by
        intro kv hkv r hr
        simp only [List.mem_singleton] at hkv
        subst hkv
        rw [hrel] at hr
        cases hr)
      hrun
    have hown1 := runStep1_ok_own defn _ h [(k, v)] _ st1 hrun
    have hown1' : st1.own = [] := hown1.1
    have hstrict1 : st1.strict = .strictFalse := hown1.2.trans hs
    -- the setter loop skips the unregistered key entirely
    have hset : runSetters defn [(k, v)] st1 = st1 := by
      unfold runSetters
      rw [if_neg (by simp [hreg, hrel])]
      rfl
    simp only [initRest, hs, if_pos rfl] at hinit
    rw [if_pos trivial] at hinit
    have hst2 : (if some (opts.applySetters.getD true) = some true
        then runSetters defn [(k, v)] st1 else st1) = st1 := by
      split
      · exact hset
      · rfl
    rw [hst2] at hinit
    -- the mirror loop attaches the key as a plain own property
    have hj : jsOr (lookupD st1.data k) v = v := by
      unfold lookupD
      rw [h1.1]
      simp only [Option.getD_some]
      exact jsOr_self v
    have hmir : runMirror defn [(k, v)] st1
        = { st1 with own := setA st1.own k v } := by
      unfold runMirror
      rw [if_pos (by simp [hfun, hreg])]
      rw [setProp_not_reg defn st1 k _ hreg, hj]
      rfl
    rw [hmir, hown1'] at hinit
    -- the defaults pass does not touch the free-form key
    have hdef := runDefaults_frame defn.properties
      { st1 with own := setA [] k v } k hkeys
    have hdefo := runDefaults_other defn.properties { st1 with own := setA [] k v }
    -- the coercion pass does not touch it either
    have hfin := runCoerce_frame defn.properties h _ h' st' k hkeys hinit
    have hmisc := runCoerce_misc defn.properties h _ h' st' hinit
    have hdata' : alookup st'.data k = some v := by
      rw [hfin]
      rw [hdef.1]
      exact h1.1
    have hown' : st'.own = [(k, v)] := by
      rw [hmisc.2.2.1, hdefo.2.1]
      rfl
    have hstrict' : st'.strict = .strictFalse := by
      rw [hmisc.2.2.2, hdefo.2.2, hstrict1]
    -- serialization: strict-false forces schema-less mode for both calls
    have hmain : ∀ b : Bool,
        alookup (toObject defn h' st' (some b)) k = some v := by
      intro b
      unfold toObject
      rw [if_pos (by rw [hstrict']; simp)]
      have hout0 : hasKey (toObjectProps defn h' st' defn.properties []) k = false := by
        cases hk0 : hasKey (toObjectProps defn h' st' defn.properties []) k with
        | false => rfl
        | true =>
          exfalso
          rcases (toObjectProps_keys defn h' st' defn.properties [] k).mp hk0 with hc | hc
          · cases hc
          · exact hkeys hc
      rw [hown']
      simp only [toObjectOwn]
      rw [if_pos (by rw [hout0]; rfl)]
      have hget : getProp defn st' k = v := by
        unfold getProp
        rw [hreg]
        simp only [Bool.false_eq_true, if_false]
        unfold lookupD
        rw [hown']
        simp [alookup]
      rw [hget, emitVal_of_prim h' v hprim]
      have hkey1 : hasKey (setA (toObjectProps defn h' st' defn.properties []) k v) k = true :=
        (hasKey_setA_iff _ _ _ _).mpr (Or.inl rfl)
      rw [toObjectData_pres defn h' st' st'.data _ k hkey1]
      exact alookup_setA_self _ k v
    exact ⟨hmain true, hmain false⟩

/-- C1 witness: the amended theorem applied to the concrete scenario. -/
theorem C1_witness :
    alookup (toObject c1defn (resHeap c1res) (resInst c1res) (some true)) "extra"
        = some (.num 1) ∧
    alookup (toObject c1defn (resHeap c1res) (resInst c1res) (some false)) "extra"
        = some (.num 1) :=
  C1_amended_thm c1defn [] "extra" (.num 1) ⟨none, some .strictFalse⟩
    (resHeap c1res) (resInst c1res) (by decide) (by decide) (by decide) rfl
    (by decide)

/-! ## Claim C3: relation ingestion -/

/-- C3 schema: a `Number` foreign-key property and one relation
`owner : {keyFrom: ownerId, keyTo: id}`. -/
def c3defn : ModelDef :=
  { properties := [("ownerId", ⟨some (.named "Number"), .noDflt⟩)],
    settingsStrict := .strictOther,
    relations := [("owner", ⟨"ownerId", "id"⟩)] }

/-- C3 heap: the nested related object `{id: 7}` at address 0. -/
def c3heap : Heap := [.plain [("id", .num 7)]]

/-- C3 construction: `new Model({owner: {id: 7}})`. -/
def c3res : Except JsError (Heap × Instance) :=
  modelNew c3defn c3heap [("owner", .ref 0)] ⟨none, none⟩

/-- C3 (counterexample): after ingesting a nested object under the declared
relation name `owner`, `__dataWas.owner` holds the referenced key value
`7` — the chained assignment `__data[keyFrom] = __dataWas[i] = data[i][keyTo]`
stores the foreign-key value, NOT the nested object reference — contradicting
the claim that `dataWas[k]` receives the nested object itself. -/
theorem C3_counterexample :
    alookup (resInst c3res).dataWas "owner" = some (.num 7) ∧
    (some (Value.num 7) ≠ some (Value.ref 0)) := by decide

/-- After a singleton partition loop that classifies its key as a relation,
the three stores hold the foreign-key value, the foreign-key value again,
and the nested reference, respectively. -/
theorem runStep1_relation_single (defn : ModelDef) (s : Strict) (h : Heap)
    (st st' : Instance) (kv : String × Value) (r : Relation) (fk : Value)
    (hcond : (hasKey defn.properties kv.1 && !(isFunc kv.2)) = false)
    (hrel : alookup defn.relations kv.1 = some r)
    (hgf : getField h kv.2 r.keyTo = .ok fk)
    (hrun : runStep1 defn s h [kv] st = .ok st') :
    alookup st'.data r.keyFrom = some fk ∧
    alookup st'.dataWas kv.1 = some fk ∧
    alookup st'.cachedRelations kv.1 = some kv.2 ∧
    st'.own = st.own ∧ st'.strict = st.strict := by
  unfold runStep1 at hrun
  split at hrun
  · next st₂ hstep =>
    unfold runStep1 at hrun
    cases hrun
    unfold initStep1 at hstep
    rw [if_neg (by simp [hcond])] at hstep
    simp only [hrel, hgf] at hstep
    cases hstep
    refine ⟨alookup_setA_self _ _ _, ?_, ?_, rfl, rfl⟩
    · exact alookup_setA_self _ _ _
    · exact alookup_setA_self _ _ _
  · cases hrun

/-- C3 (amended): ingesting a nested object under a declared relation name
sets `__data[keyFrom]` to the nested object's `keyTo` field, stores that
same referenced-key value (not the nested object) into `__dataWas[k]`, and
caches the nested object reference itself in `__cachedRelations[k]`. -/
theorem C3_amended_thm (defn : ModelDef) (h : Heap) (k : String) (a : Nat)
    (flds : List (String × Value)) (r : Relation) (dkf : PropDescr)
    (opts : Options) (h' : Heap) (st' : Instance)
    (hnd : (defn.properties.map Prod.fst).Nodup)
    (hreg : hasKey defn.properties k = false)
    (hrel : alookup defn.relations k = some r)
    (hkf : r.keyFrom ≠ k)
    (hmem : (r.keyFrom, dkf) ∈ defn.properties)
    (hbase : isBasePD dkf = true)
    (hobj : h.get? a = some (.plain flds))
    (hfkv : lookupD flds r.keyTo ≠ .undef)
    (hinit : modelNew defn h [(k, .ref a)] opts = .ok (h', st')) :
    alookup st'.data r.keyFrom = some (lookupD flds r.keyTo) ∧
    alookup st'.dataWas k = some (lookupD flds r.keyTo) ∧
    alookup st'.cachedRelations k = some (.ref a) := by
  have hkeys : k ∉ defn.properties.map Prod.fst := by
    apply not_mem_keys_of_alookup_none
    unfold hasKey at hreg
    cases hl : alookup defn.properties k with
    | none => rfl
    | some d => rw [hl] at hreg; cases hreg
  have hgf : getField h (Value.ref a) r.keyTo = .ok (lookupD flds r.keyTo) := by
    simp only [getField, hobj]
  unfold modelNew at hinit
  unfold initProperties at hinit
  split at hinit
  · cases hinit
  · next st1 hrun =>
    have h1 := runStep1_relation_single defn _ h _ st1 (k, .ref a) r
      (lookupD flds r.keyTo) (by rw [hreg]; rfl) hrel hgf hrun
    have h1d : alookup st1.data r.keyFrom = some (lookupD flds r.keyTo) := h1.1
    have h1w : alookup st1.dataWas k = some (lookupD flds r.keyTo) := h1.2.1
    have h1c : alookup st1.cachedRelations k = some (.ref a) := h1.2.2.1
    simp only [initRest] at hinit
    -- the setter loop: assignment under the unregistered relation key only
    -- touches own properties; keyFrom is not a raw key
    have h2 : ∀ st₂ : Instance,
        (st₂ = runSetters defn [(k, .ref a)] st1 ∨ st₂ = st1) →
        alookup st₂.data r.keyFrom = some (lookupD flds r.keyTo) ∧
        alookup st₂.dataWas k = some (lookupD flds r.keyTo) ∧
        alookup st₂.cachedRelations k = some (.ref a) := by
      intro st₂ hcase
      rcases hcase with hrw | hrw
      · subst hrw
        refine ⟨?_, ?_, ?_⟩
        · rw [(runSetters_frame defn [(k, .ref a)] st1 r.keyFrom (by
            intro kv hkv
            simp only [List.mem_singleton] at hkv
            subst hkv
            exact fun hh => hkf hh.symm)).1]
          exact h1d
        · rw [congrArg (fun l => alookup l k) (runSetters_dataWas defn [(k, .ref a)] st1)]
          exact h1w
        · rw [congrArg (fun l => alookup l k) (runSetters_cached defn [(k, .ref a)] st1)]
          exact h1c
      · subst hrw
        exact ⟨h1d, h1w, h1c⟩
    -- dispatch the applySetters and strict-mirror conditionals
    have h3 : ∀ st₃ : Instance,
        (∃ st₂ : Instance,
          (st₂ = runSetters defn [(k, .ref a)] st1 ∨ st₂ = st1) ∧
          (st₃ = runMirror defn [(k, .ref a)] st₂ ∨ st₃ = st₂)) →
        alookup st₃.data r.keyFrom = some (lookupD flds r.keyTo) ∧
        alookup st₃.dataWas k = some (lookupD flds r.keyTo) ∧
        alookup st₃.cachedRelations k = some (.ref a) := by
      rintro st₃ ⟨st₂, hst₂, hrw | hrw⟩
      · subst hrw
        have hm := runMirror_stores defn [(k, .ref a)] st₂
        have hh := h2 st₂ hst₂
        refine ⟨?_, ?_, ?_⟩
        · rw [congrArg (fun l => alookup l r.keyFrom) hm.1]
          exact hh.1
        · rw [congrArg (fun l => alookup l k) hm.2.1]
          exact hh.2.1
        · rw [congrArg (fun l => alookup l k) hm.2.2.1]
          exact hh.2.2
      · rw [hrw]
        exact h2 st₂ hst₂
    have h3' := h3
      (if initStrict defn ⟨some (opts.applySetters.getD true), opts.strict⟩
        = Strict.strictFalse then
        runMirror defn [(k, .ref a)]
          (if some (opts.applySetters.getD true) = some true
            then runSetters defn [(k, .ref a)] st1 else st1)
      else
        (if some (opts.applySetters.getD true) = some true
          then runSetters defn [(k, .ref a)] st1 else st1))
      ⟨(if some (opts.applySetters.getD true) = some true
          then runSetters defn [(k, .ref a)] st1 else st1), by
        constructor
        · split
          · exact Or.inl rfl
          · exact Or.inr rfl
        · split
          · exact Or.inl rfl
          · exact Or.inr rfl⟩
    set st3 := (if initStrict defn ⟨some (opts.applySetters.getD true), opts.strict⟩
      = Strict.strictFalse then
      runMirror defn [(k, .ref a)]
        (if some (opts.applySetters.getD true) = some true
          then runSetters defn [(k, .ref a)] st1 else st1)
    else
      (if some (opts.applySetters.getD true) = some true
        then runSetters defn [(k, .ref a)] st1 else st1)) with hst3
    -- the defaults pass: keyFrom holds a non-undefined value, k is unregistered
    have hlook3 : lookupD st3.data r.keyFrom = lookupD flds r.keyTo := by
      unfold lookupD
      rw [h3'.1]
      rfl
    have hat := runDefaults_at defn.properties st3 r.keyFrom dkf hnd hmem
    have hne3 : lookupD st3.data r.keyFrom ≠ .undef := by
      rw [hlook3]
      exact hfkv
    have h4d : alookup (runDefaults defn.properties st3).data r.keyFrom
        = some (lookupD flds r.keyTo) := (hat.2 hne3).1.trans h3'.1
    have h4w : alookup (runDefaults defn.properties st3).dataWas k
        = some (lookupD flds r.keyTo) := by
      rw [(runDefaults_frame defn.properties st3 k hkeys).2]
      exact h3'.2.1
    have h4c : alookup (runDefaults defn.properties st3).cachedRelations k
        = some (.ref a) := by
      rw [congrArg (fun l => alookup l k) (runDefaults_other defn.properties st3).1]
      exact h3'.2.2
    -- the coercion pass: keyFrom is base-typed, the rest is untouched
    have hmisc := runCoerce_misc defn.properties h _ h' st' hinit
    refine ⟨?_, ?_, ?_⟩
    · rw [runCoerce_base_at defn.properties h _ h' st' r.keyFrom dkf hnd hmem hbase hinit]
      exact h4d
    · rw [congrArg (fun l => alookup l k) hmisc.1]
      exact h4w
    · rw [congrArg (fun l => alookup l k) hmisc.2.1]
      exact h4c

/-- C3 witness: the amended theorem applied to the concrete scenario. -/
theorem C3_witness :
    alookup (resInst c3res).data "ownerId" = some (.num 7) ∧
    alookup (resInst c3res).dataWas "owner" = some (.num 7) ∧
    alookup (resInst c3res).cachedRelations "owner" = some (.ref 0) :=
  C3_amended_thm c3defn c3heap "owner" 0 [("id", .num 7)] ⟨"ownerId", "id"⟩
    ⟨some (.named "Number"), .noDflt⟩ ⟨none, none⟩ (resHeap c3res) (resInst c3res)
    (by decide) (by decide) (by decide) (by decide) (by decide) (by decide)
    (by decide) (by decide) (by decide)

/-! ## Characterization of base-typed properties after construction -/

/-- The value a base-typed registered property holds after construction:
the supplied value, or the descriptor's default when the supplied value is
absent or `undefined`. -/
def suppliedOrDefault (raw : List (String × Value)) (p : String) (d : PropDescr) :
    Value :=
  if lookupD raw p = .undef then getDefault d else lookupD raw p

/-- After a successful construction, a base-primitive-typed registered
property holds `suppliedOrDefault` in both `__data` and `__dataWas`,
provided no relation ingestion targets it and it is not supplied with a
function value. -/
theorem init_base_char (defn : ModelDef) (h : Heap) (raw : List (String × Value))
    (opts : Options) (p : String) (d : PropDescr) (h' : Heap) (st' : Instance)
    (hnd : (defn.properties.map Prod.fst).Nodup)
    (hndraw : (raw.map Prod.fst).Nodup)
    (hmem : (p, d) ∈ defn.properties)
    (hbase : isBasePD d = true)
    (hnorel : ∀ kv ∈ raw, ∀ r, alookup defn.relations kv.1 = some r →
      (hasKey defn.properties kv.1 && !(isFunc kv.2)) = false → r.keyFrom ≠ p)
    (hfun : ∀ kv ∈ raw, kv.1 = p → isFunc kv.2 = false)
    (hinit : modelNew defn h raw opts = .ok (h', st')) :
    alookup st'.data p = some (suppliedOrDefault raw p d) ∧
    alookup st'.dataWas p = some (suppliedOrDefault raw p d) := by
  have hreg : hasKey defn.properties p = true := by
    unfold hasKey
    rw [alookup_of_mem_nodup defn.properties p d hmem hnd]
    rfl
  unfold modelNew at hinit
  unfold initProperties at hinit
  split at hinit
  · cases hinit
  · next st1 hrun =>
    simp only [initRest] at hinit
    -- after the partition loop, `__data[p]` mirrors the raw entry
    have h1 : alookup st1.data p = alookup raw p ∧
        alookup st1.dataWas p = alookup raw p := by
      cases hl : alookup raw p with
      | none =>
        have hkeys : p ∉ raw.map Prod.fst := not_mem_keys_of_alookup_none raw p hl
        have hfr := runStep1_frame defn _ h raw _ st1 p
          (fun kv hkv => ⟨fun hh => hkeys (List.mem_map.mpr ⟨kv, hkv, hh⟩),
            fun r hr hc => hnorel kv hkv r hr hc⟩)
          hrun
        exact ⟨hfr.1, hfr.2⟩
      | some v =>
        have hmemr : (p, v) ∈ raw := mem_of_alookup raw p v hl
        have hfv : isFunc v = false := hfun (p, v) hmemr rfl
        have hst := runStep1_store_at defn _ h raw _ st1 p v hndraw hmemr
          (Or.inl (by rw [hreg, hfv]; rfl)) hnorel hrun
        exact ⟨hst.1, hst.2⟩
    -- the setter loop re-stores the same raw value
    have h2 : alookup (if some (opts.applySetters.getD true) = some true
          then runSetters defn raw st1 else st1).data p = alookup raw p ∧
        alookup (if some (opts.applySetters.getD true) = some true
          then runSetters defn raw st1 else st1).dataWas p = alookup raw p := by
      split
      · constructor
        · cases hl : alookup raw p with
          | none =>
            have hkeys : p ∉ raw.map Prod.fst := not_mem_keys_of_alookup_none raw p hl
            rw [(runSetters_frame defn raw st1 p
              (fun kv hkv hh => hkeys (List.mem_map.mpr ⟨kv, hkv, hh⟩))).1]
            rw [h1.1, hl]
          | some v =>
            rw [runSetters_data_at defn raw st1 p v (h1.1.trans hl)
              (fun kv hkv hkp => Or.inl (by
                have := alookup_of_mem_nodup raw kv.1 kv.2
                  (by rw [show (kv.1, kv.2) = kv from rfl]; exact hkv) hndraw
                rw [hkp] at this
                rw [hl] at this
                cases this
                rfl))]
        · rw [congrArg (fun l => alookup l p) (runSetters_dataWas defn raw st1)]
          exact h1.2
      · exact h1
    set st2 := (if some (opts.applySetters.getD true) = some true
      then runSetters defn raw st1 else st1) with hst2
    -- the mirror loop leaves the data stores intact
    have h3 : alookup (if initStrict defn ⟨some (opts.applySetters.getD true), opts.strict⟩
          = Strict.strictFalse then runMirror defn raw st2 else st2).data p = alookup raw p ∧
        alookup (if initStrict defn ⟨some (opts.applySetters.getD true), opts.strict⟩
          = Strict.strictFalse then runMirror defn raw st2 else st2).dataWas p
          = alookup raw p := by
      split
      · have hm := runMirror_stores defn raw st2
        exact ⟨(congrArg (fun l => alookup l p) hm.1).trans h2.1,
          (congrArg (fun l => alookup l p) hm.2.1).trans h2.2⟩
      · exact h2
    set st3 := (if initStrict defn ⟨some (opts.applySetters.getD true), opts.strict⟩
      = Strict.strictFalse then runMirror defn raw st2 else st2) with hst3
    -- the defaults pass produces `suppliedOrDefault`
    have hlook3 : lookupD st3.data p = lookupD raw p := by
      unfold lookupD
      rw [h3.1]
    have hat := runDefaults_at defn.properties st3 p d hnd hmem
    have h4 : alookup (runDefaults defn.properties st3).data p
          = some (suppliedOrDefault raw p d) ∧
        alookup (runDefaults defn.properties st3).dataWas p
          = some (suppliedOrDefault raw p d) := by
      by_cases hu : lookupD st3.data p = .undef
      · have hud : lookupD raw p = .undef := by rw [← hlook3]; exact hu
        have hv := hat.1 hu
        unfold suppliedOrDefault
        rw [if_pos hud]
        exact hv
      · have hud : ¬ (lookupD raw p = .undef) := by rw [← hlook3]; exact hu
        have hv := hat.2 hu
        unfold suppliedOrDefault
        rw [if_neg hud]
        constructor
        · rw [hv.1, h3.1]
          exact alookup_of_lookupD_ne raw p hud
        · rw [hv.2, hlook3]
      -- dead branch guard: none
    -- the coercion pass skips base-typed properties
    have hmisc := runCoerce_misc defn.properties h _ h' st' hinit
    constructor
    · rw [runCoerce_base_at defn.properties h _ h' st' p d hnd hmem hbase hinit]
      exact h4.1
    · rw [congrArg (fun l => alookup l p) hmisc.1]
      exact h4.2

/-! ## Claim C5: defaults for unsupplied properties -/

/-- C5 counterexample schema: an array-typed property with no default. -/
def c5defn : ModelDef :=
  { properties := [("tags", ⟨some (.arrayOf (.named "String")), .noDflt⟩)],
    settingsStrict := .strictOther, relations := [] }

/-- C5 counterexample construction: nothing supplied. -/
def c5res : Except JsError (Heap × Instance) :=
  modelNew c5defn [] [] ⟨none, none⟩

/-- C5 (counterexample): for an array-typed registered property with no
declared default and no supplied value, after initialization `__data.tags`
holds a freshly allocated Ordered List Container reference — not the
default (`undefined`) — while `__dataWas.tags` does hold `undefined`; so
the claim that both stores equal the default fails for non-base-typed
properties. -/
theorem C5_counterexample :
    alookup (resInst c5res).data "tags" = some (.ref 0) ∧
    alookup (resInst c5res).dataWas "tags" = some .undef ∧
    (some (Value.ref 0) ≠ some Value.undef) := by decide

/-- C5 (amended): for every base-primitive-typed registered property `p`
not supplied in the construction input (and not targeted by a relation's
foreign key), after initialization `__data[p]` and `__dataWas[p]` both
equal the descriptor's default — the literal value, the factory's result,
or `undefined` when no default is declared.  (For non-base-typed
properties `__dataWas[p]` still holds the default but the coercion pass
may rewrite `__data[p]`, e.g. wrapping array-typed properties into a
container.) -/
theorem C5_amended_thm (defn : ModelDef) (h : Heap) (raw : List (String × Value))
    (opts : Options) (p : String) (d : PropDescr) (h' : Heap) (st' : Instance)
    (hnd : (defn.properties.map Prod.fst).Nodup)
    (hndraw : (raw.map Prod.fst).Nodup)
    (hmem : (p, d) ∈ defn.properties)
    (hbase : isBasePD d = true)
    (hnotsup : alookup raw p = none)
    (Hrel : ∀ kr ∈ defn.relations, kr.2.keyFrom ≠ p)
    (hinit : modelNew defn h raw opts = .ok (h', st')) :
    alookup st'.data p = some (getDefault d) ∧
    alookup st'.dataWas p = some (getDefault d) := by
  have hchar := init_base_char defn h raw opts p d h' st' hnd hndraw hmem hbase
    (fun kv _ r hr _ => Hrel (kv.1, r) (mem_of_alookup defn.relations kv.1 r hr))
    (fun kv hkv hkp =>
      absurd (List.mem_map.mpr ⟨kv, hkv, hkp⟩)
        (not_mem_keys_of_alookup_none raw p hnotsup))
    hinit
  have hsd : suppliedOrDefault raw p d = getDefault d := by
    unfold suppliedOrDefault lookupD
    rw [hnotsup]
    rfl
  rw [hsd] at hchar
  exact hchar

/-- C5 witness schema: a `Number` property with literal default `42`. -/
def c5wdefn : ModelDef :=
  { properties := [("age", ⟨some (.named "Number"), .value (.num 42)⟩)],
    settingsStrict := .strictOther, relations := [] }

/-- C5 witness construction. -/
def c5wres : Except JsError (Heap × Instance) :=
  modelNew c5wdefn [] [] ⟨none, none⟩

/-- C5 witness: the amended theorem applied to the concrete scenario. -/
theorem C5_witness :
    alookup (resInst c5wres).data "age" = some (.num 42) ∧
    alookup (resInst c5wres).dataWas "age" = some (.num 42) :=
  C5_amended_thm c5wdefn [] [] ⟨none, none⟩ "age"
    ⟨some (.named "Number"), .value (.num 42)⟩ (resHeap c5wres) (resInst c5wres)
    (by decide) (by decide) (by decide) (by decide) (by decide) (by decide)
    (by decide)

/-! ## Claim C7: shallow reference-based dirty tracking -/

/-- C7 counterexample schema: a complex-typed (`JSON`) property. -/
def c7defn : ModelDef :=
  { properties := [("meta", ⟨some (.named "JSON"), .noDflt⟩)],
    settingsStrict := .strictOther, relations := [] }

/-- C7 counterexample construction: `meta` supplied as the string "5". -/
def c7res : Except JsError (Heap × Instance) :=
  modelNew c7defn [] [("meta", .str "5")] ⟨none, none⟩

/-- C7 (counterexample): a registered property with a complex declared type
supplied with the primitive string "5" is dirty immediately after
construction — the coercion pass JSON-parses `__data.meta` into the number
5 after the baseline snapshot recorded the string — contradicting the claim
that `propertyChanged(p)` is false right after construction for every
property supplied with a primitive-typed value. -/
theorem C7_counterexample :
    propertyChanged (resInst c7res) "meta" = true := by decide

/-- C7 (amended): `propertyChanged(name)` is true exactly when
`__data[name]` and `__dataWas[name]` are not `===`-identical; it consults
only those two entries (so in-place mutation of a referenced structure
cannot change it); reassigning a registered property through its setter to
a value that differs from the baseline makes it true; and for every
base-primitive-typed registered property supplied with a non-function
value, it is false immediately after construction (for complex-typed
properties the coercion pass may rewrite the value, making it true). -/
theorem C7_amended_thm :
    (∀ (st : Instance) (p : String),
      propertyChanged st p = true ↔ lookupD st.data p ≠ lookupD st.dataWas p) ∧
    (∀ (s1 s2 : Instance) (p : String),
      alookup s1.data p = alookup s2.data p →
      alookup s1.dataWas p = alookup s2.dataWas p →
      propertyChanged s1 p = propertyChanged s2 p) ∧
    (∀ (defn : ModelDef) (st : Instance) (p : String) (w : Value),
      hasKey defn.properties p = true → w ≠ lookupD st.dataWas p →
      propertyChanged (setProp defn st p w) p = true) ∧
    (∀ (defn : ModelDef) (h : Heap) (raw : List (String × Value)) (opts : Options)
      (p : String) (d : PropDescr) (h' : Heap) (st' : Instance),
      (defn.properties.map Prod.fst).Nodup → (raw.map Prod.fst).Nodup →
      (p, d) ∈ defn.properties → isBasePD d = true →
      (∀ kr ∈ defn.relations, kr.2.keyFrom ≠ p) →
      (∀ kv ∈ raw, kv.1 = p → isFunc kv.2 = false) →
      modelNew defn h raw opts = .ok (h', st') →
      propertyChanged st' p = false) := by
  refine ⟨?_, ?_, ?_, ?_⟩
  · intro st p
    unfold propertyChanged
    rw [Bool.not_eq_true']
    exact beq_eq_false_iff_ne
  · intro s1 s2 p h1 h2
    unfold propertyChanged lookupD
    rw [h1, h2]
  · intro defn st p w hreg hne
    rw [setProp_reg defn st p w hreg]
    unfold propertyChanged
    have h1 : lookupD ({ st with data := setA st.data p w } : Instance).data p = w := by
      unfold lookupD
      rw [show ({ st with data := setA st.data p w } : Instance).data
        = setA st.data p w from rfl]
      rw [alookup_setA_self]
      rfl
    rw [h1]
    rw [show ({ st with data := setA st.data p w } : Instance).dataWas
      = st.dataWas from rfl]
    rw [beq_eq_false_iff_ne.mpr hne]
    rfl
  · intro defn h raw opts p d h' st' hnd hndraw hmem hbase Hrel hfun hinit
    have hchar := init_base_char defn h raw opts p d h' st' hnd hndraw hmem hbase
      (fun kv _ r hr _ => Hrel (kv.1, r) (mem_of_alookup defn.relations kv.1 r hr))
      hfun hinit
    unfold propertyChanged lookupD
    rw [hchar.1, hchar.2]
    simp

/-- C7 witness schema: a `Number` property. -/
def c7wdefn : ModelDef :=
  { properties := [("age", ⟨some (.named "Number"), .noDflt⟩)],
    settingsStrict := .strictOther, relations := [] }

/-- C7 witness construction: `age` supplied as the number 30. -/
def c7wres : Except JsError (Heap × Instance) :=
  modelNew c7wdefn [] [("age", .num 30)] ⟨none, none⟩

/-- C7 witness: the amended theorem's post-construction clause applied to
the concrete scenario. -/
theorem C7_witness : propertyChanged (resInst c7wres) "age" = false :=
  C7_amended_thm.2.2.2 c7wdefn [] [("age", .num 30)] ⟨none, none⟩ "age"
    ⟨some (.named "Number"), .noDflt⟩ (resHeap c7wres) (resInst c7wres)
    (by decide) (by decide) (by decide) (by decide) (by decide) (by decide)
    (by decide)

/-! ## Claim C4: function-valued input keys -/

/-- The setter loop never assigns under a key whose every raw occurrence is
function-valued. -/
theorem runSetters_own_skip (defn : ModelDef) (raw : List (String × Value))
    (st : Instance) (k : String)
    (Hk : ∀ kv ∈ raw, kv.1 = k → isFunc kv.2 = true) :
    alookup (runSetters defn raw st).own k = alookup st.own k := by
  induction raw generalizing st with
  | nil => rfl
  | cons kv t ih =>
    have Hk' : ∀ kv' ∈ t, kv'.1 = k → isFunc kv'.2 = true :=
      fun kv' hkv' => Hk kv' (List.mem_cons_of_mem kv hkv')
    unfold runSetters
    split
    · next hcond =>
      have hne : kv.1 ≠ k := by
        intro hcontra
        have hfv := Hk kv (List.mem_cons_self kv t) hcontra
        rcases Bool.and_eq_true .. |>.mp hcond with ⟨hnf, -⟩
        rw [hfv] at hnf
        cases hnf
      rw [ih _ Hk']
      unfold setProp
      split
      · rfl
      · exact alookup_setA_ne st.own kv.1 k _ (Ne.symm hne)
    · exact ih st Hk'

/-- The mirror loop never assigns under a key whose every raw occurrence is
function-valued. -/
theorem runMirror_own_skip (defn : ModelDef) (raw : List (String × Value))
    (st : Instance) (k : String)
    (Hk : ∀ kv ∈ raw, kv.1 = k → isFunc kv.2 = true) :
    alookup (runMirror defn raw st).own k = alookup st.own k := by
  induction raw generalizing st with
  | nil => rfl
  | cons kv t ih =>
    have Hk' : ∀ kv' ∈ t, kv'.1 = k → isFunc kv'.2 = true :=
      fun kv' hkv' => Hk kv' (List.mem_cons_of_mem kv hkv')
    unfold runMirror
    split
    · next hcond =>
      have hne : kv.1 ≠ k := by
        intro hcontra
        have hfv := Hk kv (List.mem_cons_self kv t) hcontra
        rcases Bool.and_eq_true .. |>.mp hcond with ⟨hnf, -⟩
        rw [hfv] at hnf
        cases hnf
      rw [ih _ Hk']
      unfold setProp
      split
      · rfl
      · exact alookup_setA_ne st.own kv.1 k _ (Ne.symm hne)
    · exact ih st Hk'

/-- C4 schema: one registered `String` property. -/
def c4defn : ModelDef :=
  { properties := [("name", ⟨some (.named "String"), .noDflt⟩)],
    settingsStrict := .strictOther, relations := [] }

/-- C4 (counterexample): a function value supplied under the registered key
`name` under `strict: 'throw'` raises `UnknownPropertyError` — the
declared-property branch skips function values, so the key falls through to
the unknown branch — contradicting the claim that function-valued keys
never cause an `UnknownPropertyError`. -/
theorem C4_counterexample :
    modelNew c4defn [] [("name", .func 0)] ⟨none, some .strictThrow⟩
      = .error (.unknownProperty "name") := by decide

/-- C4 (amended): a function-valued input key is skipped by the
declared-property branch and by the setter and mirror loops (it is never
attached as an own property), but it still falls through to the
relation/unknown classification: a function-valued registered non-relation
key IS stored into `__data`/`__dataWas` under `strict === false`, and
raises `UnknownPropertyError` under `strict === 'throw'`. -/
theorem C4_amended_thm :
    (∀ (defn : ModelDef) (h : Heap) (raw : List (String × Value)) (opts : Options)
      (k : String) (v : Value) (h' : Heap) (st' : Instance),
      (raw.map Prod.fst).Nodup → (k, v) ∈ raw → isFunc v = true →
      modelNew defn h raw opts = .ok (h', st') →
      alookup st'.own k = none) ∧
    (∀ (defn : ModelDef) (h : Heap) (raw : List (String × Value)) (opts : Options)
      (k : String) (v : Value) (dk : PropDescr) (h' : Heap) (st' : Instance),
      (defn.properties.map Prod.fst).Nodup → (raw.map Prod.fst).Nodup →
      (k, v) ∈ raw → isFunc v = true →
      (k, dk) ∈ defn.properties → isBasePD dk = true →
      alookup defn.relations k = none →
      (∀ kr ∈ defn.relations, kr.2.keyFrom ≠ k) →
      opts.strict.getD defn.settingsStrict = .strictFalse →
      modelNew defn h raw opts = .ok (h', st') →
      alookup st'.data k = some v ∧ alookup st'.dataWas k = some v) ∧
    (∀ (defn : ModelDef) (h : Heap) (k : String) (v : Value) (opts : Options),
      isFunc v = true → hasKey defn.properties k = true →
      alookup defn.relations k = none →
      opts.strict.getD defn.settingsStrict = .strictThrow →
      modelNew defn h [(k, v)] opts = .error (.unknownProperty k)) := by
  refine ⟨?_, ?_, ?_⟩
  · intro defn h raw opts k v h' st' hndraw hmem hfv hinit
    have Hk : ∀ kv ∈ raw, kv.1 = k → isFunc kv.2 = true := by
      intro kv hkv hkp
      have h1 := alookup_of_mem_nodup raw kv.1 kv.2
        (by rw [show (kv.1, kv.2) = kv from rfl]; exact hkv) hndraw
      rw [hkp] at h1
      have h2 := alookup_of_mem_nodup raw k v hmem hndraw
      rw [h2] at h1
      cases h1
      exact hfv
    unfold modelNew at hinit
    unfold initProperties at hinit
    split at hinit
    · cases hinit
    · next st1 hrun =>
      have hown1 : st1.own = [] := (runStep1_ok_own defn _ h raw _ st1 hrun).1
      simp only [initRest] at hinit
      have hmisc := runCoerce_misc defn.properties h _ h' st' hinit
      rw [congrArg (fun l => alookup l k) hmisc.2.2.1]
      rw [congrArg (fun l => alookup l k)
        (runDefaults_other defn.properties _).2.1]
      have h3 : alookup (if initStrict defn ⟨some (opts.applySetters.getD true), opts.strict⟩
            = Strict.strictFalse then runMirror defn raw
              (if some (opts.applySetters.getD true) = some true
                then runSetters defn raw st1 else st1)
            else (if some (opts.applySetters.getD true) = some true
              then runSetters defn raw st1 else st1)).own k = none := by
      -- mirror and setter loops both skip the function-valued key
        have h2 : alookup (if some (opts.applySetters.getD true) = some true
            then runSetters defn raw st1 else st1).own k = none := by
          split
          · rw [runSetters_own_skip defn raw st1 k Hk, hown1]
            rfl
          · rw [hown1]
            rfl
        split
        · rw [runMirror_own_skip defn raw _ k Hk]
          exact h2
        · exact h2
      exact h3
  · intro defn h raw opts k v dk h' st' hnd hndraw hmem hfv hmemp hbase hrel Hrel hsf hinit
    have hreg : hasKey defn.properties k = true := by
      unfold hasKey
      rw [alookup_of_mem_nodup defn.properties k dk hmemp hnd]
      rfl
    have hnorel : ∀ kv ∈ raw, ∀ r, alookup defn.relations kv.1 = some r →
        (hasKey defn.properties kv.1 && !(isFunc kv.2)) = false → r.keyFrom ≠ k :=
      fun kv _ r hr _ => Hrel (kv.1, r) (mem_of_alookup defn.relations kv.1 r hr)
    have hvne : v ≠ .undef := by
      intro hh
      rw [hh] at hfv
      cases hfv
    unfold modelNew at hinit
    unfold initProperties at hinit
    split at hinit
    · cases hinit
    · next st1 hrun =>
      have h1 := runStep1_store_at defn _ h raw _ st1 k v hndraw hmem
        (Or.inr ⟨by rw [hreg, hfv]; rfl, hrel, hsf⟩) hnorel hrun
      simp only [initRest] at hinit
      have h2 : alookup (if some (opts.applySetters.getD true) = some true
            then runSetters defn raw st1 else st1).data k = some v ∧
          alookup (if some (opts.applySetters.getD true) = some true
            then runSetters defn raw st1 else st1).dataWas k = some v := by
        split
        · refine ⟨runSetters_data_at defn raw st1 k v h1.1 ?_, ?_⟩
          · intro kv hkv hkp
            refine Or.inl ?_
            have ha := alookup_of_mem_nodup raw kv.1 kv.2
              (by rw [show (kv.1, kv.2) = kv from rfl]; exact hkv) hndraw
            rw [hkp] at ha
            have hb := alookup_of_mem_nodup raw k v hmem hndraw
            rw [hb] at ha
            cases ha
            rfl
          · rw [congrArg (fun l => alookup l k) (runSetters_dataWas defn raw st1)]
            exact h1.2
        · exact h1
      set st2 := (if some (opts.applySetters.getD true) = some true
        then runSetters defn raw st1 else st1) with hst2
      have h3 : alookup (if initStrict defn ⟨some (opts.applySetters.getD true), opts.strict⟩
            = Strict.strictFalse then runMirror defn raw st2 else st2).data k = some v ∧
          alookup (if initStrict defn ⟨some (opts.applySetters.getD true), opts.strict⟩
            = Strict.strictFalse then runMirror defn raw st2 else st2).dataWas k
            = some v := by
        split
        · have hm := runMirror_stores defn raw st2
          exact ⟨(congrArg (fun l => alookup l k) hm.1).trans h2.1,
            (congrArg (fun l => alookup l k) hm.2.1).trans h2.2⟩
        · exact h2
      set st3 := (if initStrict defn ⟨some (opts.applySetters.getD true), opts.strict⟩
        = Strict.strictFalse then runMirror defn raw st2 else st2) with hst3
      have hlook3 : lookupD st3.data k = v := by
        unfold lookupD
        rw [h3.1]
        rfl
      have hat := runDefaults_at defn.properties st3 k dk hnd hmemp
      have hne3 : lookupD st3.data k ≠ .undef := by
        rw [hlook3]
        exact hvne
      have h4 : alookup (runDefaults defn.properties st3).data k = some v ∧
          alookup (runDefaults defn.properties st3).dataWas k = some v := by
        refine ⟨(hat.2 hne3).1.trans h3.1, (hat.2 hne3).2.trans ?_⟩
        rw [hlook3]
      have hmisc := runCoerce_misc defn.properties h _ h' st' hinit
      constructor
      · rw [runCoerce_base_at defn.properties h _ h' st' k dk hnd hmemp hbase hinit]
        exact h4.1
      · rw [congrArg (fun l => alookup l k) hmisc.1]
        exact h4.2
  · intro defn h k v opts hfv hreg hrel hs
    have hcond : (hasKey defn.properties (k, v).1 && !(isFunc (k, v).2)) = false := by
      show (hasKey defn.properties k && !(isFunc v)) = false
      rw [hreg, hfv]
      rfl
    have hs' : initStrict defn ⟨some (opts.applySetters.getD true), opts.strict⟩
        = .strictThrow := hs
    have hrun : runStep1 defn
        (initStrict defn ⟨some (opts.applySetters.getD true), opts.strict⟩) h [(k, v)]
        (initSt0 defn h [(k, v)] ⟨some (opts.applySetters.getD true), opts.strict⟩)
        = .error (.unknownProperty (k, v).1) := by
      unfold runStep1
      rw [initStep1_throws defn _ h _ (k, v) hcond hrel hs']
    unfold modelNew
    unfold initProperties
    rw [hrun]

/-- C4 witness construction: function value under `strict: false`. -/
def c4wres : Except JsError (Heap × Instance) :=
  modelNew c4defn [] [("name", .func 0)] ⟨none, some .strictFalse⟩

/-- C4 witness: the amended theorem's storage and rejection clauses applied
to the concrete scenario. -/
theorem C4_witness :
    (alookup (resInst c4wres).own "name" = none ∧
      alookup (resInst c4wres).data "name" = some (.func 0) ∧
      alookup (resInst c4wres).dataWas "name" = some (.func 0)) ∧
    modelNew c4defn [] [("name", .func 0)] ⟨none, some .strictThrow⟩
      = .error (.unknownProperty "name") :=
  ⟨⟨C4_amended_thm.1 c4defn [] [("name", .func 0)] ⟨none, some .strictFalse⟩
      "name" (.func 0) (resHeap c4wres) (resInst c4wres)
      (by decide) (by decide) (by decide) (by decide),
    C4_amended_thm.2.1 c4defn [] [("name", .func 0)] ⟨none, some .strictFalse⟩
      "name" (.func 0) ⟨some (.named "String"), .noDflt⟩
      (resHeap c4wres) (resInst c4wres)
      (by decide) (by decide) (by decide) (by decide) (by decide) (by decide)
      (by decide) (by decide) (by decide) (by decide)⟩,
    C4_amended_thm.2.2 c4defn [] "name" (.func 0) ⟨none, some .strictThrow⟩
      (by decide) (by decide) (by decide) (by decide)⟩

/-! ## Claim C2: when construction raises `UnknownPropertyError` -/

/-- C2 schema: one registered `String` property, no relations. -/
def c2defn : ModelDef :=
  { properties := [("name", ⟨some (.named "String"), .noDflt⟩)],
    settingsStrict := .strictOther, relations := [] }

/-- C2 (counterexample): under `strict: 'throw'`, supplying the REGISTERED
key `name` with a function value raises `UnknownPropertyError` — the
declared-property branch requires a non-function value, so the key falls
through to the unknown branch — contradicting the claim that construction
never raises when every input key is a registered property or relation
name, whatever the values. -/
theorem C2_counterexample :
    modelNew c2defn [] [("name", .func 0)] ⟨none, some .strictThrow⟩
      = .error (.unknownProperty "name") ∧
    hasKey c2defn.properties "name" = true := by decide

/-- C2 (amended): provided no relation-classified input value is nullish
(those fail with a TypeError instead), construction fails with
`UnknownPropertyError` iff the resolved strict mode is `'throw'` and some
input key reaches the unknown branch — i.e. it is neither a
non-function-valued registered property nor a relation name.  (The original
claim's "absent from both the registry and the relation set" misses the
function-valued registered keys.) -/
theorem C2_amended_thm (defn : ModelDef) (h : Heap) (raw : List (String × Value))
    (opts : Options)
    (HnoNull : ∀ kv ∈ raw, (hasKey defn.properties kv.1 && !(isFunc kv.2)) = false →
      ∀ r, alookup defn.relations kv.1 = some r → kv.2 ≠ .null ∧ kv.2 ≠ .undef) :
    (∃ k, modelNew defn h raw opts = .error (.unknownProperty k)) ↔
    (opts.strict.getD defn.settingsStrict = .strictThrow ∧ ∃ kv ∈ raw,
      (hasKey defn.properties kv.1 && !(isFunc kv.2)) = false ∧
      alookup defn.relations kv.1 = none) := by
  cases hr : runStep1 defn
      (initStrict defn ⟨some (opts.applySetters.getD true), opts.strict⟩) h raw
      (initSt0 defn h raw ⟨some (opts.applySetters.getD true), opts.strict⟩) with
  | ok st1 =>
    have heq : modelNew defn h raw opts
        = initRest defn h raw ⟨some (opts.applySetters.getD true), opts.strict⟩ st1 := by
      unfold modelNew initProperties
      rw [hr]
    constructor
    · rintro ⟨k, hk⟩
      exfalso
      rw [heq] at hk
      simp only [initRest] at hk
      obtain ⟨m, hm⟩ := runCoerce_error_shape defn.properties h _ _ hk
      cases hm
    · rintro ⟨hs, kv, hkv, hcond, hrel⟩
      exfalso
      have hs' : initStrict defn ⟨some (opts.applySetters.getD true), opts.strict⟩
          = .strictThrow := hs
      obtain ⟨k, hk⟩ := (runStep1_unknown_iff defn _ h raw _ HnoNull).mpr
        ⟨hs', kv, hkv, hcond, hrel⟩
      rw [hr] at hk
      cases hk
  | error e =>
    have heq : modelNew defn h raw opts = .error e := by
      unfold modelNew initProperties
      rw [hr]
    constructor
    · rintro ⟨k, hk⟩
      rw [heq] at hk
      have he : e = .unknownProperty k := by
        cases hk
        rfl
      rw [he] at hr
      exact (runStep1_unknown_iff defn _ h raw _ HnoNull).mp ⟨k, hr⟩
    · rintro ⟨hs, kv, hkv, hcond, hrel⟩
      have hs' : initStrict defn ⟨some (opts.applySetters.getD true), opts.strict⟩
          = .strictThrow := hs
      obtain ⟨k, hk⟩ := (runStep1_unknown_iff defn _ h raw _ HnoNull).mpr
        ⟨hs', kv, hkv, hcond, hrel⟩
      rw [hr] at hk
      have he : e = .unknownProperty k := by
        cases hk
        rfl
      exact ⟨k, by rw [heq, he]⟩

/-- C2 witness: the amended theorem applied to a concrete unregistered key
under `strict: 'throw'`. -/
theorem C2_witness :
    ∃ k, modelNew c2defn [] [("bogus", .num 1)] ⟨none, some .strictThrow⟩
      = .error (.unknownProperty k) :=
  (C2_amended_thm c2defn [] [("bogus", .num 1)] ⟨none, some .strictThrow⟩
    (by decide)).mpr
    ⟨by decide, ("bogus", .num 1), by decide, by decide, by decide⟩

/-! ## Claim C8: round-trip for primitive-only schemas -/

theorem hasKey_of_mem {α : Type} (l : List (String × α)) (kv : String × α)
    (h : kv ∈ l) : hasKey l kv.1 = true := by
  induction l with
  | nil => simp at h
  | cons kv0 t ih =>
    by_cases hk : kv0.1 = kv.1
    · unfold hasKey alookup
      rw [if_pos hk]
      rfl
    · rcases List.mem_cons.mp h with heq | htail
      · rw [heq] at hk
        exact absurd rfl hk
      · unfold hasKey alookup
        rw [if_neg hk]
        exact ih htail

theorem mem_keys_hasKey {α : Type} (l : List (String × α)) (q : String)
    (h : q ∈ l.map Prod.fst) : hasKey l q = true := by
  cases hk : hasKey l q with
  | true => rfl
  | false =>
    exfalso
    unfold hasKey at hk
    cases hl : alookup l q with
    | none => exact not_mem_keys_of_alookup_none l q hl h
    | some w => rw [hl] at hk; cases hk

theorem keys_map_pair {β : Type} (l : List (String × β)) (g : String × β → Value) :
    (l.map (fun pd => (pd.1, g pd))).map Prod.fst = l.map Prod.fst := by
  induction l with
  | nil => rfl
  | cons pd t ih => simp [ih]

/-- Reading a registered property goes through `__data`. -/
theorem getProp_reg (defn : ModelDef) (st : Instance) (p : String)
    (h : hasKey defn.properties p = true) :
    getProp defn st p = lookupD st.data p := by
  unfold getProp
  rw [if_pos h]

/-- The setter loop only writes `__data` under raw keys. -/
theorem runSetters_keys (defn : ModelDef) (raw : List (String × Value))
    (st : Instance) (q : String)
    (h : hasKey (runSetters defn raw st).data q = true) :
    hasKey st.data q = true ∨ q ∈ raw.map Prod.fst := by
  induction raw generalizing st with
  | nil => exact Or.inl h
  | cons kv t ih =>
    unfold runSetters at h
    split at h
    · rcases ih _ h with hk | hm
      · unfold setProp at hk
        split at hk
        · rcases (hasKey_setA_iff st.data kv.1 q _).mp hk with heq | hold
          · exact Or.inr (by simp [heq])
          · exact Or.inl hold
        · exact Or.inl hk
      · exact Or.inr (by simp [hm])
    · rcases ih _ h with hk | hm
      · exact Or.inl hk
      · exact Or.inr (by simp [hm])

/-- The setter loop never attaches own properties when every raw key is
registered. -/
theorem runSetters_own_reg (defn : ModelDef) (raw : List (String × Value))
    (st : Instance)
    (HK : ∀ kv ∈ raw, hasKey defn.properties kv.1 = true) :
    (runSetters defn raw st).own = st.own := by
  induction raw generalizing st with
  | nil => rfl
  | cons kv t ih =>
    have HK' : ∀ kv' ∈ t, hasKey defn.properties kv'.1 = true :=
      fun kv' hkv' => HK kv' (List.mem_cons_of_mem kv hkv')
    unfold runSetters
    split
    · rw [ih _ HK']
      rw [setProp_reg defn st kv.1 _ (HK kv (List.mem_cons_self kv t))]
    · exact ih st HK'

/-- The partition loop under an all-declared-property input only writes
`__data` under raw keys. -/
theorem runStep1_keys_branch1 (defn : ModelDef) (s : Strict) (h : Heap)
    (raw : List (String × Value)) (st st' : Instance) (q : String)
    (Hall : ∀ kv ∈ raw, (hasKey defn.properties kv.1 && !(isFunc kv.2)) = true)
    (hrun : runStep1 defn s h raw st = .ok st')
    (hkey : hasKey st'.data q = true) :
    hasKey st.data q = true ∨ q ∈ raw.map Prod.fst := by
  induction raw generalizing st with
  | nil =>
    cases hrun
    exact Or.inl hkey
  | cons kv t ih =>
    unfold runStep1 at hrun
    split at hrun
    · next st₂ hstep =>
      unfold initStep1 at hstep
      rw [if_pos (Hall kv (List.mem_cons_self kv t))] at hstep
      cases hstep
      rcases ih _ (fun kv' hkv' => Hall kv' (List.mem_cons_of_mem kv hkv')) hrun with hk | hm
      · rcases (hasKey_setA_iff st.data kv.1 q _).mp hk with heq | hold
        · exact Or.inr (by simp [heq])
        · exact Or.inl hold
      · exact Or.inr (by simp [hm])
    · cases hrun

/-- Schema-less serialization of an all-primitive instance with no own
properties lists exactly the registered properties with their current
values, in registry order. -/
theorem toObject_prim_false (defn : ModelDef) (h : Heap) (st : Instance)
    (HN : (defn.properties.map Prod.fst).Nodup)
    (hvals : ∀ pd ∈ defn.properties, hasKey st.data pd.1 = true ∧
      isPrim (getProp defn st pd.1) = true)
    (hown : st.own = [])
    (hkeys : ∀ q, hasKey st.data q = true → q ∈ defn.properties.map Prod.fst) :
    toObject defn h st (some false)
      = defn.properties.map (fun pd => (pd.1, getProp defn st pd.1)) := by
  unfold toObject
  rw [if_pos (by simp)]
  rw [hown]
  rw [toObjectProps_prim defn h st defn.properties [] HN hvals (fun pd _ => rfl)]
  simp only [List.nil_append, toObjectOwn]
  apply toObjectData_all
  intro kv hkv
  have hq := hkeys kv.1 (hasKey_of_mem st.data kv hkv)
  apply mem_keys_hasKey
  rw [keys_map_pair]
  exact hq

/-- Full characterization of a successful construction over an
all-base-typed schema from an all-registered, all-primitive input:
every registered property holds `suppliedOrDefault`, no own properties are
attached, and `__data` has no unregistered keys. -/
theorem init_prim_all (defn : ModelDef) (h : Heap) (raw : List (String × Value))
    (opts : Options) (h' : Heap) (st' : Instance)
    (HT : ∀ pd ∈ defn.properties, isBasePD pd.2 = true)
    (HN : (defn.properties.map Prod.fst).Nodup)
    (HRN : (raw.map Prod.fst).Nodup)
    (HK : ∀ kv ∈ raw, hasKey defn.properties kv.1 = true)
    (HV : ∀ kv ∈ raw, isPrim kv.2 = true)
    (hinit : modelNew defn h raw opts = .ok (h', st')) :
    (∀ pd ∈ defn.properties,
      alookup st'.data pd.1 = some (suppliedOrDefault raw pd.1 pd.2)) ∧
    st'.own = [] ∧
    (∀ q, hasKey st'.data q = true → q ∈ defn.properties.map Prod.fst) := by
  have hA1 : ∀ pd ∈ defn.properties,
      alookup st'.data pd.1 = some (suppliedOrDefault raw pd.1 pd.2) := by
    intro pd hpd
    exact (init_base_char defn h raw opts pd.1 pd.2 h' st' HN HRN
      (by rw [show (pd.1, pd.2) = pd from rfl]; exact hpd) (HT pd hpd)
      (fun kv hkv r hr hc => absurd hc (by
        rw [HK kv hkv, isFunc_of_prim kv.2 (HV kv hkv)]
        simp))
      (fun kv hkv _ => isFunc_of_prim kv.2 (HV kv hkv))
      hinit).1
  have Hall : ∀ kv ∈ raw, (hasKey defn.properties kv.1 && !(isFunc kv.2)) = true := by
    intro kv hkv
    rw [HK kv hkv, isFunc_of_prim kv.2 (HV kv hkv)]
    rfl
  unfold modelNew at hinit
  unfold initProperties at hinit
  split at hinit
  · cases hinit
  · next st1 hrun =>
    simp only [initRest] at hinit
    rw [runCoerce_all_base defn.properties h _ HT] at hinit
    cases hinit
    refine ⟨hA1, ?_, ?_⟩
    · rw [(runDefaults_other defn.properties _).2.1]
      have hown1 : st1.own = [] := by
        have := (runStep1_ok_own defn _ h raw _ st1 hrun).1
        rw [this]
        rfl
      have hown2 : (if some (opts.applySetters.getD true) = some true
          then runSetters defn raw st1 else st1).own = [] := by
        split
        · rw [runSetters_own_reg defn raw st1 HK]
          exact hown1
        · exact hown1
      split
      · rw [runMirror_all_reg defn raw _ HK]
        exact hown2
      · exact hown2
    · intro q hq
      rcases runDefaults_keys defn.properties _ q hq with hk3 | hm
      · -- a pre-defaults key: it came from the raw input
        have hk2 : hasKey (if some (opts.applySetters.getD true) = some true
            then runSetters defn raw st1 else st1).data q = true := by
          revert hk3
          split
          · rw [runMirror_all_reg defn raw _ HK]
            exact id
          · exact id
        have hk1 : hasKey st1.data q = true ∨ q ∈ raw.map Prod.fst := by
          revert hk2
          split
          · intro hk2
            rcases runSetters_keys defn raw st1 q hk2 with hk | hm
            · exact Or.inl hk
            · exact Or.inr hm
          · exact fun hk2 => Or.inl hk2
        have hraw_sub : q ∈ raw.map Prod.fst → q ∈ defn.properties.map Prod.fst := by
          intro hm
          obtain ⟨kv, hkv, hfst⟩ := List.mem_map.mp hm
          have := HK kv hkv
          unfold hasKey at this
          cases hl : alookup defn.properties kv.1 with
          | none => rw [hl] at this; cases this
          | some d =>
            have := mem_keys_of_alookup defn.properties kv.1 d hl
            rw [hfst] at this
            exact this
        rcases hk1 with hk | hm
        · rcases runStep1_keys_branch1 defn _ h raw _ st1 q Hall hrun hk with hk0 | hm
          · exfalso
            unfold hasKey at hk0
            rw [show alookup (initSt0 defn h raw
              ⟨some (opts.applySetters.getD true), opts.strict⟩).data q
              = none from rfl] at hk0
            cases hk0
          · exact hraw_sub hm
        · exact hraw_sub hm
      · exact hm

/-- C8 (confirmed): for a schema of only base-primitive-typed registered
properties with primitive defaults, constructed from an input that supplies
only registered keys with primitive values (no schema-less extras),
`fromObject(instance.toObject(false))` applied to a freshly
default-constructed instance reproduces the original `toObject(false)`
output exactly. -/
theorem C8_confirmed_thm (defn : ModelDef) (h1 h2 : Heap)
    (raw : List (String × Value)) (opts1 opts2 : Options) (h1' h2' : Heap)
    (st1 st2 : Instance)
    (HT : ∀ pd ∈ defn.properties, isBasePD pd.2 = true)
    (HD : ∀ pd ∈ defn.properties, isPrim (getDefault pd.2) = true)
    (HN : (defn.properties.map Prod.fst).Nodup)
    (HRN : (raw.map Prod.fst).Nodup)
    (HK : ∀ kv ∈ raw, hasKey defn.properties kv.1 = true)
    (HV : ∀ kv ∈ raw, isPrim kv.2 = true)
    (hinit1 : modelNew defn h1 raw opts1 = .ok (h1', st1))
    (hinit2 : modelNew defn h2 [] opts2 = .ok (h2', st2)) :
    toObject defn h2'
        (fromObject defn st2 (toObject defn h1' st1 (some false))) (some false)
      = toObject defn h1' st1 (some false) := by
  obtain ⟨hA1, hA2, hA3⟩ := init_prim_all defn h1 raw opts1 h1' st1 HT HN HRN HK HV hinit1
  obtain ⟨hB1, hB2, hB3⟩ := init_prim_all defn h2 [] opts2 h2' st2 HT HN (by simp)
    (by simp) (by simp) hinit2
  have hsodprim : ∀ pd ∈ defn.properties,
      isPrim (suppliedOrDefault raw pd.1 pd.2) = true := by
    intro pd hpd
    unfold suppliedOrDefault
    split
    · exact HD pd hpd
    · next hne =>
      have hl := alookup_of_lookupD_ne raw pd.1 hne
      exact HV (pd.1, lookupD raw pd.1) (mem_of_alookup raw pd.1 _ hl)
  have hg1 : ∀ pd ∈ defn.properties,
      getProp defn st1 pd.1 = suppliedOrDefault raw pd.1 pd.2 := by
    intro pd hpd
    unfold getProp
    rw [if_pos (hasKey_of_mem defn.properties pd hpd)]
    unfold lookupD
    rw [hA1 pd hpd]
    rfl
  have hvals1 : ∀ pd ∈ defn.properties, hasKey st1.data pd.1 = true ∧
      isPrim (getProp defn st1 pd.1) = true := by
    intro pd hpd
    constructor
    · unfold hasKey
      rw [hA1 pd hpd]
      rfl
    · rw [hg1 pd hpd]
      exact hsodprim pd hpd
  have ho := toObject_prim_false defn h1' st1 HN hvals1 hA2 hA3
  rw [ho]
  have hokeys := keys_map_pair defn.properties (fun pd => getProp defn st1 pd.1)
  have hondk : ((defn.properties.map
      (fun pd => (pd.1, getProp defn st1 pd.1))).map Prod.fst).Nodup := by
    rw [hokeys]
    exact HN
  have hallreg : ∀ kv ∈ defn.properties.map (fun pd => (pd.1, getProp defn st1 pd.1)),
      hasKey defn.properties kv.1 = true := by
    intro kv hkv
    obtain ⟨pd, hpd, hrw⟩ := List.mem_map.mp hkv
    rw [← hrw]
    exact hasKey_of_mem defn.properties pd hpd
  have hf_at : ∀ pd ∈ defn.properties,
      alookup (fromObject defn st2 (defn.properties.map
        (fun pd => (pd.1, getProp defn st1 pd.1)))).data pd.1
      = some (getProp defn st1 pd.1) := by
    intro pd hpd
    exact fromObject_data_at defn st2 _ pd.1 (getProp defn st1 pd.1) hondk
      (List.mem_map.mpr ⟨pd, hpd, rfl⟩) (hasKey_of_mem defn.properties pd hpd)
  have hgf : ∀ pd ∈ defn.properties,
      getProp defn (fromObject defn st2 (defn.properties.map
        (fun pd => (pd.1, getProp defn st1 pd.1)))) pd.1
      = getProp defn st1 pd.1 := by
    intro pd hpd
    rw [getProp_reg defn _ pd.1 (hasKey_of_mem defn.properties pd hpd)]
    unfold lookupD
    rw [hf_at pd hpd]
    rfl
  have hvals2 : ∀ pd ∈ defn.properties,
      hasKey (fromObject defn st2 (defn.properties.map
        (fun pd => (pd.1, getProp defn st1 pd.1)))).data pd.1 = true ∧
      isPrim (getProp defn (fromObject defn st2 (defn.properties.map
        (fun pd => (pd.1, getProp defn st1 pd.1)))) pd.1) = true := by
    intro pd hpd
    constructor
    · unfold hasKey
      rw [hf_at pd hpd]
      rfl
    · rw [hgf pd hpd, hg1 pd hpd]
      exact hsodprim pd hpd
  have hf_own : (fromObject defn st2 (defn.properties.map
      (fun pd => (pd.1, getProp defn st1 pd.1)))).own = [] :=
    (fromObject_own_reg defn st2 _ hallreg).trans hB2
  have hf_keys : ∀ q, hasKey (fromObject defn st2 (defn.properties.map
      (fun pd => (pd.1, getProp defn st1 pd.1)))).data q = true →
      q ∈ defn.properties.map Prod.fst := by
    intro q hq
    rcases fromObject_keys defn st2 _ q hq with hk | hm
    · exact hB3 q hk
    · rw [hokeys] at hm
      exact hm
  rw [toObject_prim_false defn h2' _ HN hvals2 hf_own hf_keys]
  apply List.map_congr_left
  intro pd hpd
  rw [hgf pd hpd]

/-- C8 witness schema: two primitive properties, one with a default. -/
def c8defn : ModelDef :=
  { properties := [("a", ⟨some (.named "String"), .value (.str "x")⟩),
      ("b", ⟨some (.named "Number"), .noDflt⟩)],
    settingsStrict := .strictOther, relations := [] }

/-- C8 witness: original instance, constructed with `b: 3`. -/
def c8res : Except JsError (Heap × Instance) :=
  modelNew c8defn [] [("b", .num 3)] ⟨none, none⟩

/-- C8 witness: fresh default instance. -/
def c8fresh : Except JsError (Heap × Instance) :=
  modelNew c8defn [] [] ⟨none, none⟩

/-- C8 witness: the round-trip theorem applied to the concrete scenario. -/
theorem C8_witness :
    toObject c8defn (resHeap c8fresh)
        (fromObject c8defn (resInst c8fresh)
          (toObject c8defn (resHeap c8res) (resInst c8res) (some false)))
        (some false)
      = toObject c8defn (resHeap c8res) (resInst c8res) (some false) :=
  C8_confirmed_thm c8defn [] [] [("b", .num 3)] ⟨none, none⟩ ⟨none, none⟩
    (resHeap c8res) (resHeap c8fresh) (resInst c8res) (resInst c8fresh)
    (by decide) (by decide) (by decide) (by decide) (by decide) (by decide)
    (by decide) (by decide)

end Juggler
